import Mathlib

/-!
# Library management system (`LibSys/LibSys.cpp`)

A shallow embedding of the classes `Book` and `Library` of `LibSys.cpp`, and
theorems about their operations.

Modelling conventions.

* `std::unordered_map<K, V>` is an association list with pairwise distinct keys
  (`AList`).  The position of an entry in the list stands for the unspecified
  iteration order of the hash map.
* `std::shared_ptr<Book>` values are owned by the `books` map alone (callers only
  read through the pointer returned by `findBook`), so a book is stored by value
  and a mutation through the pointer is a replacement of the stored value.
* `int` is the 32-bit two's-complement integer; the increment of `nextId` wraps.
* `std::time_t` is the 64-bit two's-complement integer; the clock reading of
  `std::time(nullptr)` is an explicit argument `now : Int`, and the sum
  `now + 14 * 24 * 60 * 60` of `borrowBook` wraps at that width.
* `std::string` is a `String`; `::tolower` is the function of the default "C" locale,
  which changes the letters `A`..`Z` only; `std::to_string(int)` is the decimal
  numeral with a leading minus sign for negative values; `s.find(q)` yields `none`
  for `std::string::npos`.
* The `print...` member functions and `searchBooks` write to `std::cout`; the
  embedding returns what they print as a `Report`: the `(id, book)` blocks in the
  order they are printed and the one-line notice, if it is printed.
-/

namespace LibSys

/-! ## Machine integers -/

/-- Largest value of the 32-bit `int`. -/
def INT_MAX : Int := 2147483647

/-- Smallest value of the 32-bit `int`. -/
def INT_MIN : Int := -2147483648

/-- Two's-complement reduction of an integer to the range of the 32-bit `int`. -/
def wrapInt (x : Int) : Int := (x + 2147483648) % 4294967296 - 2147483648

/-- Largest value of the 64-bit `std::time_t`. -/
def TIME_MAX : Int := 9223372036854775807

/-- Smallest value of the 64-bit `std::time_t`. -/
def TIME_MIN : Int := -9223372036854775808

/-- Two's-complement reduction of an integer to the range of the 64-bit
`std::time_t`. -/
def wrapTime (x : Int) : Int :=
  (x + 9223372036854775808) % 18446744073709551616 - 9223372036854775808

/-! ## `class Book` -/

/-- The private data members of `class Book`. -/
structure Book where
  title : String
  author : String
  isbn : String
  publicationYear : Int
  isAvailable : Bool
  dueDate : Int
deriving DecidableEq, Repr

/-- Constructor `Book::Book(title, author, isbn, publicationYear)`: the book starts
available with `dueDate(0)`. -/
def Book.new (title author isbn : String) (publicationYear : Int) : Book :=
  { title := title, author := author, isbn := isbn, publicationYear := publicationYear,
    isAvailable := true, dueDate := 0 }

/-- Getter `Book::getTitle`. -/
def Book.getTitle (b : Book) : String := b.title

/-- Getter `Book::getAuthor`. -/
def Book.getAuthor (b : Book) : String := b.author

/-- Getter `Book::getISBN`. -/
def Book.getISBN (b : Book) : String := b.isbn

/-- Getter `Book::getPublicationYear`. -/
def Book.getPublicationYear (b : Book) : Int := b.publicationYear

/-- Getter `Book::getAvailability`. -/
def Book.getAvailability (b : Book) : Bool := b.isAvailable

/-- Getter `Book::getDueDate`. -/
def Book.getDueDate (b : Book) : Int := b.dueDate

/-- Setter `Book::setAvailability`. -/
def Book.setAvailability (b : Book) (availability : Bool) : Book :=
  { b with isAvailable := availability }

/-- Setter `Book::setDueDate`. -/
def Book.setDueDate (b : Book) (date : Int) : Book :=
  { b with dueDate := date }

/-! ## `class Library` -/

/-- The private data members of `class Library`. -/
structure Library where
  books : AList (fun _ : Int => Book)
  borrowedBooks : AList (fun _ : String => List Int)
  nextId : Int
deriving DecidableEq

/-- The default-constructed library: both maps empty, `nextId = 1`. -/
def Library.new : Library :=
  { books := ∅, borrowedBooks := ∅, nextId := 1 }

/-- What a `print...` member function writes: the `Book ID` blocks in printing
order, and the text of the notice line when one is printed. -/
structure Report where
  entries : List (Int × Book)
  notice : Option String
deriving DecidableEq, Repr

/-- The value `m[key]` of `std::unordered_map::operator[]` on the borrower map: the
stored vector, or the empty vector that the operator creates for an absent key. -/
def subscript (m : AList (fun _ : String => List Int)) (key : String) : List Int :=
  match m.lookup key with
  | some v => v
  | none => []

/-- The erase-remove idiom `v.erase(std::remove(v.begin(), v.end(), value), v.end())`:
one pass over the vector that keeps the elements different from `value`. -/
def eraseRemove (value : Int) : List Int → List Int
  | [] => []
  | x :: rest => if x = value then eraseRemove value rest else x :: eraseRemove value rest

/-- Member function `Library::addBook`: returns the id and the new state. -/
def Library.addBook (L : Library) (title author isbn : String) (publicationYear : Int) :
    Int × Library :=
  let id := L.nextId
  (id, { L with
          nextId := wrapInt (L.nextId + 1)
          books := L.books.insert id (Book.new title author isbn publicationYear) })

/-- Member function `Library::removeBook`: `books.erase(id) > 0` and the new state. -/
def Library.removeBook (L : Library) (id : Int) : Bool × Library :=
  let erased : Nat := if id ∈ L.books then 1 else 0
  (decide (erased > 0), { L with books := L.books.erase id })

/-- Member function `Library::findBook`: `none` stands for `nullptr`. -/
def Library.findBook (L : Library) (id : Int) : Option Book :=
  L.books.lookup id

/-- Member function `Library::borrowBook`; `now` is the value of `std::time(nullptr)`. -/
def Library.borrowBook (L : Library) (now : Int) (id : Int) (borrower : String) :
    Bool × Library :=
  match L.findBook id with
  | some book =>
    if book.getAvailability then
      let book1 := book.setAvailability false
      let dueDate := wrapTime (now + 14 * 24 * 60 * 60)
      let book2 := book1.setDueDate dueDate
      (true, { L with
                books := L.books.replace id book2
                borrowedBooks :=
                  L.borrowedBooks.insert borrower (subscript L.borrowedBooks borrower ++ [id]) })
    else (false, L)
  | none => (false, L)

/-- Member function `Library::returnBook`. -/
def Library.returnBook (L : Library) (id : Int) (borrower : String) : Bool × Library :=
  match L.findBook id with
  | some book =>
    if !book.getAvailability then
      let book1 := book.setAvailability true
      (true, { L with
                books := L.books.replace id book1
                borrowedBooks :=
                  L.borrowedBooks.insert borrower
                    (eraseRemove id (subscript L.borrowedBooks borrower)) })
    else (false, L)
  | none => (false, L)

/-- The loop `for (int id : it->second)` of `Library::printBorrowedBooks`: a block is
printed for each id that `findBook` resolves, the others are passed over. -/
def Library.printBorrowedLoop (L : Library) : List Int → List (Int × Book)
  | [] => []
  | id :: rest =>
    match L.findBook id with
    | some book => (id, book) :: L.printBorrowedLoop rest
    | none => L.printBorrowedLoop rest

/-- Member function `Library::printBorrowedBooks`. -/
def Library.printBorrowedBooks (L : Library) (borrower : String) : Report :=
  match L.borrowedBooks.lookup borrower with
  | some ids => { entries := L.printBorrowedLoop ids, notice := none }
  | none => { entries := [], notice := some ("No books borrowed by " ++ borrower ++ ".\n") }

/-! ## Strings and searching -/

/-- The function `::tolower` of `<cctype>` in the default "C" locale: the letters
`A`..`Z` go to `a`..`z`, every other character is returned as it is. -/
def tolower (c : Char) : Char :=
  if 65 ≤ c.toNat ∧ c.toNat ≤ 90 then Char.ofNat (c.toNat + 32) else c

/-- The call `std::transform(s.begin(), s.end(), s.begin(), ::tolower)`: every
character of the string is replaced by its `tolower`. -/
def transformToLower (s : String) : String :=
  ⟨s.data.map tolower⟩

/-- The function `std::to_string(int)`: the decimal digits, after a minus sign for
a negative value. -/
def to_string (n : Int) : String :=
  match n with
  | Int.ofNat m => ⟨Nat.toDigits 10 m⟩
  | Int.negSucc m => ⟨'-' :: Nat.toDigits 10 (m + 1)⟩

/-- The scan of `std::string::find`: the first position from `pos` on at which `q`
starts in the characters that are left, `none` standing for `npos`. -/
def findFrom (q : List Char) : List Char → Nat → Option Nat
  | [], pos => if q.isPrefixOf [] then some pos else none
  | c :: rest, pos =>
    if q.isPrefixOf (c :: rest) then some pos else findFrom q rest (pos + 1)

/-- The call `s.find(q)` of `std::string::find`, `none` standing for `npos`. -/
def find (s q : String) : Option Nat :=
  findFrom q.data s.data 0

/-- The condition of the `if` in the loop of `Library::searchBooks`, for the
lowercased query `q` and the map entry `(id, book)`. -/
def searchMatch (q : String) (id : Int) (book : Book) : Bool :=
  let title := transformToLower book.getTitle
  let author := transformToLower book.getAuthor
  let isbn := transformToLower book.getISBN
  let idStr := to_string id
  let year := to_string book.getPublicationYear
  (find title q != none) || (find author q != none) || (find isbn q != none) ||
    (idStr == q) || (year == q)

/-- The loop `for (const auto& pair : books)` of `Library::searchBooks`, from the
value of `found` so far: the blocks printed and the final value of `found`. -/
def searchLoop (q : String) : List (Sigma fun _ : Int => Book) → Bool → List (Int × Book) × Bool
  | [], found => ([], found)
  | ⟨id, book⟩ :: rest, found =>
    if searchMatch q id book then
      let r := searchLoop q rest true
      ((id, book) :: r.1, r.2)
    else searchLoop q rest found

/-- Member function `Library::searchBooks`. -/
def Library.searchBooks (L : Library) (query : String) : Report :=
  let q := transformToLower query
  let r := searchLoop q L.books.entries false
  { entries := r.1
    notice := if !r.2 then some "No books found matching the query.\n" else none }

/-- Member function `Library::printAllBooks`: one block for each entry of `books`. -/
def Library.printAllBooks (L : Library) : Report :=
  { entries := L.books.entries.map (fun pair => (pair.1, pair.2)), notice := none }

/-- The loop of `Library::printAvailableBooks`: a block for each entry whose book
is available. -/
def printAvailableLoop : List (Sigma fun _ : Int => Book) → List (Int × Book)
  | [] => []
  | ⟨id, book⟩ :: rest =>
    if book.getAvailability then (id, book) :: printAvailableLoop rest
    else printAvailableLoop rest

/-- Member function `Library::printAvailableBooks`. -/
def Library.printAvailableBooks (L : Library) : Report :=
  { entries := printAvailableLoop L.books.entries, notice := none }

/-- The function `preloadBooks`: ten calls of `addBook`, their results discarded. -/
def preloadBooks (library : Library) : Library :=
  let l1 := (library.addBook "The Great Gatsby" "F. Scott Fitzgerald" "9780743273565" 1925).2
  let l2 := (l1.addBook "To Kill a Mockingbird" "Harper Lee" "9780060935467" 1960).2
  let l3 := (l2.addBook "1984" "George Orwell" "9780451524935" 1949).2
  let l4 := (l3.addBook "Pride and Prejudice" "Jane Austen" "9781503290563" 1813).2
  let l5 := (l4.addBook "The Catcher in the Rye" "J.D. Salinger" "9780316769488" 1951).2
  let l6 := (l5.addBook "The Hobbit" "J.R.R. Tolkien" "9780547928227" 1937).2
  let l7 := (l6.addBook "Fahrenheit 451" "Ray Bradbury" "9781451673319" 1953).2
  let l8 := (l7.addBook "Moby Dick" "Herman Melville" "9781503280786" 1851).2
  let l9 := (l8.addBook "War and Peace" "Leo Tolstoy" "9781400079988" 1869).2
  (l9.addBook "The Odyssey" "Homer" "9780140268867" (-800)).2

/-- The matching rule of the search in the words of the specification: the
lowercased query is a substring of the lowercased title, author or isbn, or the
query itself is the decimal string of the id or of the publication year. -/
def matchesQuery (query : String) (id : Int) (book : Book) : Prop :=
  (transformToLower query).data <:+: (transformToLower book.title).data ∨
  (transformToLower query).data <:+: (transformToLower book.author).data ∨
  (transformToLower query).data <:+: (transformToLower book.isbn).data ∨
  query = to_string id ∨
  query = to_string book.publicationYear

/-! ## Sequences of calls -/

/-- One call of a state-changing member function of `Library`, with its arguments
(and, for `borrowBook`, the clock reading `now` at the time of the call). -/
inductive Call where
  | addBook (title author isbn : String) (publicationYear : Int)
  | removeBook (id : Int)
  | borrowBook (now : Int) (id : Int) (borrower : String)
  | returnBook (id : Int) (borrower : String)
deriving DecidableEq, Repr

/-- Performs one call: the id returned when the call is an `addBook`, and the new state. -/
def Library.call (L : Library) : Call → Option Int × Library
  | .addBook title author isbn publicationYear =>
    let r := L.addBook title author isbn publicationYear
    (some r.1, r.2)
  | .removeBook id => (none, (L.removeBook id).2)
  | .borrowBook now id borrower => (none, (L.borrowBook now id borrower).2)
  | .returnBook id borrower => (none, (L.returnBook id borrower).2)

/-- Performs the calls in order: the ids returned by the `addBook` calls, in call
order, and the final state. -/
def Library.run (L : Library) : List Call → List Int × Library
  | [] => ([], L)
  | c :: rest =>
    let r := L.call c
    let t := r.2.run rest
    match r.1 with
    | some id => (id :: t.1, t.2)
    | none => (t.1, t.2)

/-- Number of `addBook` calls in a sequence of calls. -/
def countAddBook : List Call → Nat
  | [] => 0
  | .addBook _ _ _ _ :: rest => countAddBook rest + 1
  | _ :: rest => countAddBook rest

/-- Whether, in the run of `calls` from the state `L`, some call `borrowBook id`
returns true: the negation says that book `id` has never been borrowed. -/
def everBorrowed (L : Library) : List Call → Int → Bool
  | [], _ => false
  | c :: rest, id =>
    (match c with
      | .borrowBook now i who => decide (i = id) && (L.borrowBook now i who).1
      | _ => false) || everBorrowed (L.call c).2 rest id

/-! ## Concrete states -/

/-- A catalog holding one available book, with id 1. -/
def oneBook : Library := (Library.new.addBook "1984" "George Orwell" "9780451524935" 1949).2

/-- The catalog `oneBook` after "A" borrowed book 1 at clock reading 1000. -/
def oneBookOnLoan : Library := (oneBook.borrowBook 1000 1 "A").2

/-- A reachable state in which the vector of "A" is `[1, 2, 1]` and book 1 is on
loan: "A" borrows book 1, "B" hands it back, then "A" borrows book 2 and book 1. -/
def doubleEntry : Library :=
  (Library.new.run [.addBook "1984" "George Orwell" "9780451524935" 1949,
    .addBook "Moby Dick" "Herman Melville" "9781503280786" 1851,
    .borrowBook 1000 1 "A", .returnBook 1 "B", .borrowBook 2000 2 "A",
    .borrowBook 3000 1 "A"]).2

/-! ## Lemmas on the maps -/

/-- Looking up the replaced key in the underlying entry list. -/
theorem dlookup_kreplace_self {β : Type} (a : Int) (b : β) :
    ∀ l : List (Sigma fun _ : Int => β), a ∈ l.keys →
      List.dlookup a (List.kreplace a b l) = some b := by
  intro l
  induction l with
  | nil => intro h; simp at h
  | cons x rest ih =>
    intro h
    obtain ⟨k, v⟩ := x
    by_cases hk : a = k
    · subst hk
      simp [List.kreplace, List.lookmap_cons_some, List.dlookup_cons_eq]
    · have hrest : a ∈ rest.keys := by
        simp only [List.keys_cons, List.mem_cons] at h
        rcases h with h | h
        · exact absurd h hk
        · exact h
      have hstep : List.kreplace a b (⟨k, v⟩ :: rest) = ⟨k, v⟩ :: List.kreplace a b rest := by
        simp [List.kreplace, List.lookmap_cons_none, hk]
      rw [hstep, List.dlookup_cons_ne _ _ hk]
      exact ih hrest

/-- Looking up another key in the underlying entry list after a replacement. -/
theorem dlookup_kreplace_ne {β : Type} (a c : Int) (b : β) (hne : c ≠ a) :
    ∀ l : List (Sigma fun _ : Int => β),
      List.dlookup c (List.kreplace a b l) = List.dlookup c l := by
  intro l
  induction l with
  | nil => simp [List.kreplace]
  | cons x rest ih =>
    obtain ⟨k, v⟩ := x
    by_cases hk : a = k
    · subst hk
      have hstep : List.kreplace a b (⟨a, v⟩ :: rest) = ⟨a, b⟩ :: rest := by
        simp [List.kreplace, List.lookmap_cons_some]
      rw [hstep, List.dlookup_cons_ne _ _ hne, List.dlookup_cons_ne _ _ hne]
    · have hstep : List.kreplace a b (⟨k, v⟩ :: rest) = ⟨k, v⟩ :: List.kreplace a b rest := by
        simp [List.kreplace, List.lookmap_cons_none, hk]
      rw [hstep]
      by_cases hc : c = k
      · subst hc
        simp [List.dlookup_cons_eq]
      · rw [List.dlookup_cons_ne _ _ hc, List.dlookup_cons_ne _ _ hc]
        exact ih

/-- After `replace` on a present key, the key maps to the new value. -/
theorem lookup_replace_self {β : Type} (m : AList (fun _ : Int => β)) (a : Int) (b : β)
    (h : a ∈ m) : (m.replace a b).lookup a = some b :=
  dlookup_kreplace_self a b m.entries (AList.mem_keys.mp h)

/-- The keys other than the replaced one keep their values. -/
theorem lookup_replace_ne {β : Type} (m : AList (fun _ : Int => β)) (a c : Int) (b : β)
    (hne : c ≠ a) : (m.replace a b).lookup c = m.lookup c :=
  dlookup_kreplace_ne a c b hne m.entries

/-- A key with a stored value is a key of the map. -/
theorem mem_of_lookup_eq_some {α β : Type} [DecidableEq α] (m : AList (fun _ : α => β))
    (a : α) (b : β) (h : m.lookup a = some b) : a ∈ m := by
  rw [← AList.lookup_isSome, h]; rfl

/-- The erase-remove idiom computes the filter that drops `value`. -/
theorem eraseRemove_eq_filter (value : Int) (v : List Int) :
    eraseRemove value v = v.filter (fun x => decide (x ≠ value)) := by
  induction v with
  | nil => rfl
  | cons x rest ih =>
    by_cases hx : x = value
    · simp [eraseRemove, hx, ih]
    · simp [eraseRemove, hx, ih]

/-- The printing loop of `printBorrowedBooks` is a `filterMap` over the ids. -/
theorem printBorrowedLoop_eq_filterMap (L : Library) (ids : List Int) :
    L.printBorrowedLoop ids
      = ids.filterMap (fun id => (L.findBook id).map (fun book => (id, book))) := by
  induction ids with
  | nil => rfl
  | cons id rest ih =>
    cases hf : L.findBook id with
    | none => simp [Library.printBorrowedLoop, hf, ih]
    | some book => simp [Library.printBorrowedLoop, hf, ih]

/-! ## Frame lemmas on `nextId` -/

/-- In the range of `int`, the reduction `wrapInt` is the identity. -/
theorem wrapInt_of_inRange (x : Int) (hlo : INT_MIN ≤ x) (hhi : x ≤ INT_MAX) : wrapInt x = x := by
  unfold INT_MIN at hlo
  unfold INT_MAX at hhi
  unfold wrapInt
  omega

/-- In the range of `std::time_t`, the reduction `wrapTime` is the identity. -/
theorem wrapTime_of_inRange (x : Int) (hlo : TIME_MIN ≤ x) (hhi : x ≤ TIME_MAX) :
    wrapTime x = x := by
  unfold TIME_MIN at hlo
  unfold TIME_MAX at hhi
  unfold wrapTime
  omega

/-- The due date `now + 14 days` is computed without overflow when the clock reading
is a `std::time_t` value at least 14 days below the largest one. -/
theorem wrapTime_dueDate (now : Int) (hnow : TIME_MIN ≤ now) (hfits : now + 1209600 ≤ TIME_MAX) :
    wrapTime (now + 1209600) = now + 1209600 := by
  apply wrapTime_of_inRange _ _ hfits
  unfold TIME_MIN at hnow ⊢
  omega

/-- The call `removeBook` leaves `nextId` alone. -/
theorem removeBook_nextId (L : Library) (id : Int) : (L.removeBook id).2.nextId = L.nextId := rfl

/-- The call `borrowBook` leaves `nextId` alone. -/
theorem borrowBook_nextId (L : Library) (now id : Int) (borrower : String) :
    (L.borrowBook now id borrower).2.nextId = L.nextId := by
  unfold Library.borrowBook
  cases L.findBook id with
  | none => rfl
  | some book => by_cases hb : book.getAvailability = true <;> simp [hb]

/-- The call `returnBook` leaves `nextId` alone. -/
theorem returnBook_nextId (L : Library) (id : Int) (borrower : String) :
    (L.returnBook id borrower).2.nextId = L.nextId := by
  unfold Library.returnBook
  cases L.findBook id with
  | none => rfl
  | some book => by_cases hb : book.getAvailability = true <;> simp [hb]

/-- From a state whose counter has room for all the `addBook` calls of a sequence,
the ids returned are the consecutive values `nextId, nextId + 1, ...`. -/
theorem run_ids_consecutive (calls : List Call) :
    ∀ L : Library, INT_MIN ≤ L.nextId → L.nextId + (countAddBook calls : Int) ≤ INT_MAX →
      (L.run calls).1 = (List.range (countAddBook calls)).map (fun k : Nat => L.nextId + (k : Int)) := by
  induction calls with
  | nil => intro L _ _; rfl
  | cons c rest ih =>
    intro L hlo hhi
    cases c with
    | addBook title author isbn publicationYear =>
      have hcount : countAddBook (Call.addBook title author isbn publicationYear :: rest)
          = countAddBook rest + 1 := rfl
      rw [hcount] at hhi ⊢
      push_cast at hhi
      have hnext : (L.addBook title author isbn publicationYear).2.nextId = L.nextId + 1 := by
        show wrapInt (L.nextId + 1) = L.nextId + 1
        apply wrapInt_of_inRange
        · omega
        · have := Int.ofNat_nonneg (countAddBook rest)
          omega
      have hrec := ih (L.addBook title author isbn publicationYear).2
        (by rw [hnext]; omega) (by rw [hnext]; omega)
      show (L.nextId :: ((L.addBook title author isbn publicationYear).2.run rest).1) = _
      rw [hrec, hnext, List.range_succ_eq_map, List.map_cons, List.map_map]
      congr 1
      · simp
      · apply List.map_congr_left
        intro k _
        simp only [Function.comp, Nat.succ_eq_add_one]
        push_cast
        ring
    | removeBook id =>
      have hrec := ih (L.removeBook id).2 (by rw [removeBook_nextId]; exact hlo)
        (by rw [removeBook_nextId]; exact hhi)
      rw [removeBook_nextId] at hrec
      exact hrec
    | borrowBook now id borrower =>
      have hrec := ih (L.borrowBook now id borrower).2 (by rw [borrowBook_nextId]; exact hlo)
        (by rw [borrowBook_nextId]; exact hhi)
      rw [borrowBook_nextId] at hrec
      exact hrec
    | returnBook id borrower =>
      have hrec := ih (L.returnBook id borrower).2 (by rw [returnBook_nextId]; exact hlo)
        (by rw [returnBook_nextId]; exact hhi)
      rw [returnBook_nextId] at hrec
      exact hrec

/-! ## The operations, case by case -/

/-- The vector `m[key]` is the stored one, or empty for an absent key. -/
theorem subscript_eq_getD (m : AList (fun _ : String => List Int)) (key : String) :
    subscript m key = (m.lookup key).getD [] := by
  unfold subscript
  cases m.lookup key <;> rfl

/-- The call `borrowBook` on a book that is present and available. -/
theorem borrowBook_of_available (L : Library) (now id : Int) (borrower : String) (book : Book)
    (hfind : L.findBook id = some book) (havail : book.getAvailability = true) :
    L.borrowBook now id borrower =
      (true, { L with
                books := L.books.replace id
                  ((book.setAvailability false).setDueDate
                    (wrapTime (now + 14 * 24 * 60 * 60)))
                borrowedBooks :=
                  L.borrowedBooks.insert borrower (subscript L.borrowedBooks borrower ++ [id]) }) := by
  unfold Library.borrowBook
  rw [hfind]
  simp [havail]

/-- The call `borrowBook` on a book that is present and on loan. -/
theorem borrowBook_of_unavailable (L : Library) (now id : Int) (borrower : String) (book : Book)
    (hfind : L.findBook id = some book) (havail : book.getAvailability = false) :
    L.borrowBook now id borrower = (false, L) := by
  unfold Library.borrowBook
  rw [hfind]
  simp [havail]

/-- The call `borrowBook` on an id that is not in the catalog. -/
theorem borrowBook_of_missing (L : Library) (now id : Int) (borrower : String)
    (hfind : L.findBook id = none) : L.borrowBook now id borrower = (false, L) := by
  unfold Library.borrowBook
  rw [hfind]

/-- The call `returnBook` on a book that is present and on loan. -/
theorem returnBook_of_unavailable (L : Library) (id : Int) (borrower : String) (book : Book)
    (hfind : L.findBook id = some book) (havail : book.getAvailability = false) :
    L.returnBook id borrower =
      (true, { L with
                books := L.books.replace id (book.setAvailability true)
                borrowedBooks :=
                  L.borrowedBooks.insert borrower
                    (eraseRemove id (subscript L.borrowedBooks borrower)) }) := by
  unfold Library.returnBook
  rw [hfind]
  simp [havail]

/-- The call `returnBook` on a book that is present and available. -/
theorem returnBook_of_available (L : Library) (id : Int) (borrower : String) (book : Book)
    (hfind : L.findBook id = some book) (havail : book.getAvailability = true) :
    L.returnBook id borrower = (false, L) := by
  unfold Library.returnBook
  rw [hfind]
  simp [havail]

/-- The call `returnBook` on an id that is not in the catalog. -/
theorem returnBook_of_missing (L : Library) (id : Int) (borrower : String)
    (hfind : L.findBook id = none) : L.returnBook id borrower = (false, L) := by
  unfold Library.returnBook
  rw [hfind]

/-- When `borrowBook` returns true, the book was present and available. -/
theorem available_of_borrowBook (L : Library) (now id : Int) (borrower : String)
    (h : (L.borrowBook now id borrower).1 = true) :
    ∃ book, L.findBook id = some book ∧ book.getAvailability = true := by
  cases hfind : L.findBook id with
  | none => rw [borrowBook_of_missing L now id borrower hfind] at h; exact Bool.noConfusion h
  | some book =>
    cases havail : book.getAvailability with
    | true => exact ⟨book, rfl, havail⟩
    | false =>
      rw [borrowBook_of_unavailable L now id borrower book hfind havail] at h
      exact Bool.noConfusion h

/-- When `returnBook` returns true, the book was present and on loan. -/
theorem unavailable_of_returnBook (L : Library) (id : Int) (borrower : String)
    (h : (L.returnBook id borrower).1 = true) :
    ∃ book, L.findBook id = some book ∧ book.getAvailability = false := by
  cases hfind : L.findBook id with
  | none => rw [returnBook_of_missing L id borrower hfind] at h; exact Bool.noConfusion h
  | some book =>
    cases havail : book.getAvailability with
    | false => exact ⟨book, rfl, havail⟩
    | true =>
      rw [returnBook_of_available L id borrower book hfind havail] at h
      exact Bool.noConfusion h

/-- A block printed by the loop of `printBorrowedBooks` carries an id of the list
and the book that id resolves to; every such pair is printed. -/
theorem mem_printBorrowedLoop (L : Library) (ids : List Int) (e : Int × Book) :
    e ∈ L.printBorrowedLoop ids ↔ e.1 ∈ ids ∧ L.findBook e.1 = some e.2 := by
  rw [printBorrowedLoop_eq_filterMap, List.mem_filterMap]
  constructor
  · rintro ⟨id, hid, hmap⟩
    cases hf : L.findBook id with
    | none => rw [hf] at hmap; simp at hmap
    | some book =>
      rw [hf] at hmap
      simp only [Option.map_some', Option.some.injEq] at hmap
      subst hmap
      exact ⟨hid, hf⟩
  · rintro ⟨hid, hf⟩
    exact ⟨e.1, hid, by rw [hf]; rfl⟩

/-- After a successful `borrowBook`, `findBook` yields the book marked unavailable
and due 14 days after `now`, the sum taken in `std::time_t`. -/
theorem findBook_borrowBook (L : Library) (now id : Int) (borrower : String) (book : Book)
    (hfind : L.findBook id = some book) (havail : book.getAvailability = true) :
    (L.borrowBook now id borrower).2.findBook id
      = some { book with isAvailable := false, dueDate := wrapTime (now + 1209600) } := by
  rw [borrowBook_of_available L now id borrower book hfind havail]
  exact lookup_replace_self L.books id _ (mem_of_lookup_eq_some L.books id book hfind)

/-- After a successful `borrowBook`, the vector of the borrower ends with the id. -/
theorem lookup_borrowBook (L : Library) (now id : Int) (borrower : String) (book : Book)
    (hfind : L.findBook id = some book) (havail : book.getAvailability = true) :
    (L.borrowBook now id borrower).2.borrowedBooks.lookup borrower
      = some ((L.borrowedBooks.lookup borrower).getD [] ++ [id]) := by
  rw [borrowBook_of_available L now id borrower book hfind havail]
  show (L.borrowedBooks.insert borrower _).lookup borrower = _
  rw [AList.lookup_insert, subscript_eq_getD]

/-! ## The claims -/

/-- C1. From the freshly constructed library, for every sequence of `addBook`,
`removeBook`, `borrowBook` and `returnBook` calls in which the `int` counter does not
overflow (fewer than `INT_MAX` calls of `addBook`), the first `addBook` returns 1 and
the ids returned by the `addBook` calls are strictly increasing in call order, so
each is greater than every id returned earlier. -/
theorem addBook_ids_strictly_increasing (calls : List Call)
    (h : (countAddBook calls : Int) < INT_MAX) :
    (∀ id, (Library.new.run calls).1.head? = some id → id = 1) ∧
    (Library.new.run calls).1.Pairwise (fun earlier later => earlier < later) := by
  have hids := run_ids_consecutive calls Library.new (by decide)
    (by show (1 : Int) + (countAddBook calls : Int) ≤ INT_MAX; omega)
  rw [hids]
  constructor
  · intro id hid
    cases hn : countAddBook calls with
    | zero => rw [hn] at hid; simp at hid
    | succ n =>
      rw [hn, List.range_succ_eq_map] at hid
      simp only [List.map_cons, List.head?_cons, Option.some.injEq] at hid
      rw [← hid]
      show (1 : Int) + ((0 : Nat) : Int) = 1
      simp
  · rw [List.pairwise_map]
    refine (List.pairwise_lt_range (countAddBook calls)).imp ?_
    intro a b hab
    show (1 : Int) + (a : Int) < 1 + (b : Int)
    omega

/-- C1, at a sequence with three `addBook` calls and a removal, a loan and a return
in between. -/
theorem addBook_ids_strictly_increasing_witness :
    (countAddBook [.addBook "a" "b" "c" 1, .removeBook 1, .addBook "d" "e" "f" 2,
        .borrowBook 50 2 "A", .returnBook 2 "A", .addBook "g" "h" "i" 3] : Int) < INT_MAX ∧
    ((∀ id, (Library.new.run [.addBook "a" "b" "c" 1, .removeBook 1, .addBook "d" "e" "f" 2,
        .borrowBook 50 2 "A", .returnBook 2 "A", .addBook "g" "h" "i" 3]).1.head? = some id
        → id = 1) ∧
     (Library.new.run [.addBook "a" "b" "c" 1, .removeBook 1, .addBook "d" "e" "f" 2,
        .borrowBook 50 2 "A", .returnBook 2 "A", .addBook "g" "h" "i" 3]).1.Pairwise
        (fun earlier later => earlier < later)) :=
  ⟨by decide, addBook_ids_strictly_increasing _ (by decide)⟩

/-- C2. In every library state, `findBook` on the id returned by `addBook` finds, in
the state after the call, a book with exactly the supplied title, author, isbn and
publication year, which is available. -/
theorem findBook_after_addBook (L : Library) (title author isbn : String)
    (publicationYear : Int) :
    ∃ book, (L.addBook title author isbn publicationYear).2.findBook
        (L.addBook title author isbn publicationYear).1 = some book ∧
      book.getTitle = title ∧ book.getAuthor = author ∧ book.getISBN = isbn ∧
      book.getPublicationYear = publicationYear ∧ book.getAvailability = true := by
  refine ⟨Book.new title author isbn publicationYear, ?_, rfl, rfl, rfl, rfl, rfl⟩
  show (L.books.insert L.nextId (Book.new title author isbn publicationYear)).lookup L.nextId = _
  exact AList.lookup_insert _

/-- C3. When book `id` is present and available, `borrowBook id borrower` at a clock
reading `now` of `std::time_t` for which `now + 1209600` does not overflow
`std::time_t` returns true; afterwards that book is unavailable with
`dueDate = now + 1209600` (its other fields as before), the vector of `borrower` is
its previous vector (empty if the name had no entry) with `id` appended, every other
book and every other borrower's entry is as before, and the keys of `books` and
`nextId` are unchanged. -/
theorem borrowBook_success (L : Library) (now id : Int) (borrower : String) (book : Book)
    (hfind : L.findBook id = some book) (havail : book.getAvailability = true)
    (hnow : TIME_MIN ≤ now) (hfits : now + 1209600 ≤ TIME_MAX) :
    (L.borrowBook now id borrower).1 = true ∧
    (L.borrowBook now id borrower).2.findBook id
      = some { book with isAvailable := false, dueDate := now + 1209600 } ∧
    (L.borrowBook now id borrower).2.borrowedBooks.lookup borrower
      = some ((L.borrowedBooks.lookup borrower).getD [] ++ [id]) ∧
    (∀ other, other ≠ id →
      (L.borrowBook now id borrower).2.findBook other = L.findBook other) ∧
    (∀ name, name ≠ borrower →
      (L.borrowBook now id borrower).2.borrowedBooks.lookup name
        = L.borrowedBooks.lookup name) ∧
    (L.borrowBook now id borrower).2.books.keys = L.books.keys ∧
    (L.borrowBook now id borrower).2.nextId = L.nextId := by
  have hdue : (L.borrowBook now id borrower).2.findBook id
      = some { book with isAvailable := false, dueDate := now + 1209600 } := by
    rw [findBook_borrowBook L now id borrower book hfind havail,
      wrapTime_dueDate now hnow hfits]
  refine ⟨?_, hdue, ?_⟩
  · rw [borrowBook_of_available L now id borrower book hfind havail]
  rw [borrowBook_of_available L now id borrower book hfind havail]
  refine ⟨?_, ?_, ?_, ?_, rfl⟩
  · show (L.borrowedBooks.insert borrower _).lookup borrower = _
    rw [AList.lookup_insert, subscript_eq_getD]
  · intro other hne
    exact lookup_replace_ne L.books id other _ hne
  · intro name hne
    exact AList.lookup_insert_ne hne
  · exact AList.keys_replace id _ L.books

/-- C3, at the one-book catalog: "A" borrows book 1 at clock reading 1000. -/
theorem borrowBook_success_witness :
    oneBook.findBook 1 = some (Book.new "1984" "George Orwell" "9780451524935" 1949) ∧
    TIME_MIN ≤ 1000 ∧ (1000 : Int) + 1209600 ≤ TIME_MAX ∧
    (oneBook.borrowBook 1000 1 "A").1 = true ∧
    (oneBook.borrowBook 1000 1 "A").2.findBook 1
      = some ⟨"1984", "George Orwell", "9780451524935", 1949, false, 1210600⟩ ∧
    (oneBook.borrowBook 1000 1 "A").2.borrowedBooks.lookup "A" = some [1] :=
  have h := borrowBook_success oneBook 1000 1 "A"
    (Book.new "1984" "George Orwell" "9780451524935" 1949) (by decide) (by decide)
    (by decide) (by decide)
  ⟨by decide, by decide, by decide, h.1, h.2.1, h.2.2.1⟩

/-- C4. When book `id` is not in the catalog or is already unavailable, `borrowBook`
returns false and the whole state (books with all fields, the borrower map with its
keys, `nextId`) is the state before the call.  In particular, right after a
successful `borrowBook id A`, a call `borrowBook id B` returns false and changes
nothing, for every `B`, equal to `A` or not. -/
theorem borrowBook_failure (L : Library) (now later id : Int) (A B : String) :
    ((L.findBook id = none ∨
        ∃ book, L.findBook id = some book ∧ book.getAvailability = false) →
      L.borrowBook now id B = (false, L)) ∧
    ((L.borrowBook now id A).1 = true →
      (L.borrowBook now id A).2.borrowBook later id B = (false, (L.borrowBook now id A).2)) := by
  constructor
  · rintro (hmiss | ⟨book, hfind, havail⟩)
    · exact borrowBook_of_missing L now id B hmiss
    · exact borrowBook_of_unavailable L now id B book hfind havail
  · intro hok
    obtain ⟨book, hfind, havail⟩ := available_of_borrowBook L now id A hok
    exact borrowBook_of_unavailable _ later id B _
      (findBook_borrowBook L now id A book hfind havail) rfl

/-- C4, at the one-book catalog: an absent id, a book on loan, and a second borrow
right after a first one. -/
theorem borrowBook_failure_witness :
    oneBook.findBook 7 = none ∧
    oneBook.borrowBook 1000 7 "B" = (false, oneBook) ∧
    (oneBook.borrowBook 1000 1 "A").1 = true ∧
    (oneBook.borrowBook 1000 1 "A").2.borrowBook 2000 1 "B"
      = (false, (oneBook.borrowBook 1000 1 "A").2) ∧
    (oneBook.borrowBook 1000 1 "A").2.borrowBook 2000 1 "A"
      = (false, (oneBook.borrowBook 1000 1 "A").2) :=
  ⟨by decide,
   (borrowBook_failure oneBook 1000 2000 7 "A" "B").1 (Or.inl (by decide)),
   by decide,
   (borrowBook_failure oneBook 1000 2000 1 "A" "B").2 (by decide),
   (borrowBook_failure oneBook 1000 2000 1 "A" "A").2 (by decide)⟩

/-- C5. When book `id` is present and available, `borrowBook id A` followed by
`returnBook id A` both return true; afterwards the book is available again, `id`
does not occur in the vector of `A`, and `printBorrowedBooks A` prints no block
for `id`. -/
theorem borrow_then_return (L : Library) (now id : Int) (A : String) (book : Book)
    (hfind : L.findBook id = some book) (havail : book.getAvailability = true) :
    (L.borrowBook now id A).1 = true ∧
    ((L.borrowBook now id A).2.returnBook id A).1 = true ∧
    (∃ after, ((L.borrowBook now id A).2.returnBook id A).2.findBook id = some after ∧
      after.getAvailability = true) ∧
    id ∉ (((L.borrowBook now id A).2.returnBook id A).2.borrowedBooks.lookup A).getD [] ∧
    (∀ e ∈ (((L.borrowBook now id A).2.returnBook id A).2.printBorrowedBooks A).entries,
      e.1 ≠ id) := by
  have hloan := findBook_borrowBook L now id A book hfind havail
  have hret := returnBook_of_unavailable (L.borrowBook now id A).2 id A _ hloan rfl
  have hmem : id ∈ (L.borrowBook now id A).2.books :=
    mem_of_lookup_eq_some _ id _ hloan
  have hvec : ((L.borrowBook now id A).2.returnBook id A).2.borrowedBooks.lookup A
      = some (eraseRemove id (subscript (L.borrowBook now id A).2.borrowedBooks A)) := by
    rw [hret]
    exact AList.lookup_insert _
  have hnot : id ∉ eraseRemove id (subscript (L.borrowBook now id A).2.borrowedBooks A) := by
    rw [eraseRemove_eq_filter]
    simp [List.mem_filter]
  refine ⟨?_, ?_, ?_, ?_, ?_⟩
  · rw [borrowBook_of_available L now id A book hfind havail]
  · rw [hret]
  · rw [hret]
    exact ⟨_, lookup_replace_self _ id _ hmem, rfl⟩
  · rw [hvec]
    exact hnot
  · intro e he heq
    unfold Library.printBorrowedBooks at he
    rw [hvec] at he
    have hin := ((mem_printBorrowedLoop _ _ e).mp he).1
    rw [heq] at hin
    exact hnot hin

/-- C5, at the one-book catalog, where "A" borrows and returns book 1. -/
theorem borrow_then_return_witness :
    oneBook.findBook 1 = some (Book.new "1984" "George Orwell" "9780451524935" 1949) ∧
    (oneBook.borrowBook 1000 1 "A").1 = true ∧
    ((oneBook.borrowBook 1000 1 "A").2.returnBook 1 "A").1 = true ∧
    (1 : Int) ∉ (((oneBook.borrowBook 1000 1 "A").2.returnBook 1 "A").2.borrowedBooks.lookup
      "A").getD [] ∧
    (((oneBook.borrowBook 1000 1 "A").2.returnBook 1 "A").2.printBorrowedBooks "A").entries
      = [] :=
  have h := borrow_then_return oneBook 1000 1 "A"
    (Book.new "1984" "George Orwell" "9780451524935" 1949) (by decide) (by decide)
  ⟨by decide, h.1, h.2.1, h.2.2.2.1, by decide⟩

/-- C6. The call `returnBook id borrower` returns true exactly when book `id` is
present and unavailable; when it returns true, the book is available afterwards and
the vector of `borrower` is its previous vector (empty if the name had no entry)
with every occurrence of `id` removed and the other ids kept in their order. -/
theorem returnBook_spec (L : Library) (id : Int) (borrower : String) :
    ((L.returnBook id borrower).1 = true ↔
      ∃ book, L.findBook id = some book ∧ book.getAvailability = false) ∧
    ((L.returnBook id borrower).1 = true →
      (∃ after, (L.returnBook id borrower).2.findBook id = some after ∧
        after.getAvailability = true) ∧
      (L.returnBook id borrower).2.borrowedBooks.lookup borrower
        = some (((L.borrowedBooks.lookup borrower).getD []).filter (fun x => decide (x ≠ id)))) := by
  have hsucc : ∀ book, L.findBook id = some book → book.getAvailability = false →
      (L.returnBook id borrower).1 = true ∧
      (∃ after, (L.returnBook id borrower).2.findBook id = some after ∧
        after.getAvailability = true) ∧
      (L.returnBook id borrower).2.borrowedBooks.lookup borrower
        = some (((L.borrowedBooks.lookup borrower).getD []).filter
            (fun x => decide (x ≠ id))) := by
    intro book hfind havail
    rw [returnBook_of_unavailable L id borrower book hfind havail]
    refine ⟨rfl, ⟨_, lookup_replace_self L.books id _
      (mem_of_lookup_eq_some L.books id book hfind), rfl⟩, ?_⟩
    show (L.borrowedBooks.insert borrower _).lookup borrower = _
    rw [AList.lookup_insert, eraseRemove_eq_filter, subscript_eq_getD]
  constructor
  · constructor
    · exact unavailable_of_returnBook L id borrower
    · rintro ⟨book, hfind, havail⟩
      exact (hsucc book hfind havail).1
  · intro hok
    obtain ⟨book, hfind, havail⟩ := unavailable_of_returnBook L id borrower hok
    exact (hsucc book hfind havail).2

/-- C6, at a state where the vector of "A" holds id 1 twice: both occurrences go,
id 2 stays. -/
theorem returnBook_spec_witness :
    (doubleEntry.returnBook 1 "A").1 = true ∧
    (∃ after, (doubleEntry.returnBook 1 "A").2.findBook 1 = some after ∧
      after.getAvailability = true) ∧
    (doubleEntry.returnBook 1 "A").2.borrowedBooks.lookup "A" = some [2] :=
  have h := (returnBook_spec doubleEntry 1 "A").2 (by decide)
  ⟨by decide, h.1, h.2⟩

/-- C7. When book `id` is present and unavailable, `returnBook id N` returns true for
every name `N`, holder of the book or not, and makes the book available, and the
entry of every other name `M` is as before.  So when `A` borrowed `id` and a
different name `B` returns it, `id` still occurs in the vector of `A` although the
book is available. -/
theorem returnBook_any_name (L : Library) (now id : Int) (A N : String) :
    ((∃ book, L.findBook id = some book ∧ book.getAvailability = false) →
      (L.returnBook id N).1 = true ∧
      (∃ after, (L.returnBook id N).2.findBook id = some after ∧
        after.getAvailability = true) ∧
      (∀ M, M ≠ N →
        (L.returnBook id N).2.borrowedBooks.lookup M = L.borrowedBooks.lookup M)) ∧
    ((L.borrowBook now id A).1 = true → N ≠ A →
      ((L.borrowBook now id A).2.returnBook id N).1 = true ∧
      id ∈ (((L.borrowBook now id A).2.returnBook id N).2.borrowedBooks.lookup A).getD [] ∧
      (∃ after, ((L.borrowBook now id A).2.returnBook id N).2.findBook id = some after ∧
        after.getAvailability = true)) := by
  have hfirst : ∀ K : Library,
      (∃ book, K.findBook id = some book ∧ book.getAvailability = false) →
      (K.returnBook id N).1 = true ∧
      (∃ after, (K.returnBook id N).2.findBook id = some after ∧
        after.getAvailability = true) ∧
      (∀ M, M ≠ N →
        (K.returnBook id N).2.borrowedBooks.lookup M = K.borrowedBooks.lookup M) := by
    rintro K ⟨book, hfind, havail⟩
    rw [returnBook_of_unavailable K id N book hfind havail]
    refine ⟨rfl, ⟨_, lookup_replace_self K.books id _
      (mem_of_lookup_eq_some K.books id book hfind), rfl⟩, ?_⟩
    intro M hne
    exact AList.lookup_insert_ne hne
  refine ⟨hfirst L, ?_⟩
  intro hok hne
  obtain ⟨book, hfind, havail⟩ := available_of_borrowBook L now id A hok
  have hr := hfirst (L.borrowBook now id A).2
    ⟨_, findBook_borrowBook L now id A book hfind havail, rfl⟩
  refine ⟨hr.1, ?_, hr.2.1⟩
  rw [hr.2.2 A (Ne.symm hne), lookup_borrowBook L now id A book hfind havail]
  simp

/-- C7, at the one-book catalog: "A" borrows book 1 and "B" returns it. -/
theorem returnBook_any_name_witness :
    (∃ book, oneBookOnLoan.findBook 1 = some book ∧ book.getAvailability = false) ∧
    (oneBookOnLoan.returnBook 1 "B").1 = true ∧
    (oneBookOnLoan.returnBook 1 "B").2.borrowedBooks.lookup "A"
      = oneBookOnLoan.borrowedBooks.lookup "A" ∧
    (oneBook.borrowBook 1000 1 "A").1 = true ∧
    (1 : Int) ∈ (((oneBook.borrowBook 1000 1 "A").2.returnBook 1 "B").2.borrowedBooks.lookup
      "A").getD [] ∧
    (∃ after, ((oneBook.borrowBook 1000 1 "A").2.returnBook 1 "B").2.findBook 1 = some after ∧
      after.getAvailability = true) :=
  have h1 := (returnBook_any_name oneBookOnLoan 1000 1 "A" "B").1
    ⟨⟨"1984", "George Orwell", "9780451524935", 1949, false, 1210600⟩, by decide, by decide⟩
  have h2 := (returnBook_any_name oneBook 1000 1 "A" "B").2 (by decide) (by decide)
  ⟨⟨⟨"1984", "George Orwell", "9780451524935", 1949, false, 1210600⟩, by decide, by decide⟩,
   h1.1, h1.2.2 "A" (by decide), by decide, h2.2.1, h2.2.2⟩

/-- C8. When book `id` is not in the catalog or is available, `returnBook` returns
false and the state is the state before the call: no vector changes, no entry is
created for the borrower name, and the books and `nextId` are untouched. -/
theorem returnBook_failure (L : Library) (id : Int) (borrower : String)
    (h : L.findBook id = none ∨
      ∃ book, L.findBook id = some book ∧ book.getAvailability = true) :
    L.returnBook id borrower = (false, L) := by
  rcases h with hmiss | ⟨book, hfind, havail⟩
  · exact returnBook_of_missing L id borrower hmiss
  · exact returnBook_of_available L id borrower book hfind havail

/-- C8, at the one-book catalog: book 1 was never borrowed, and "A" has no entry
before or after the refused return. -/
theorem returnBook_failure_witness :
    (∃ book, oneBook.findBook 1 = some book ∧ book.getAvailability = true) ∧
    oneBook.returnBook 1 "A" = (false, oneBook) ∧
    (oneBook.returnBook 1 "A").2.borrowedBooks.lookup "A" = none :=
  ⟨⟨Book.new "1984" "George Orwell" "9780451524935" 1949, by decide, by decide⟩,
   returnBook_failure oneBook 1 "A"
     (Or.inr ⟨Book.new "1984" "George Orwell" "9780451524935" 1949, by decide, by decide⟩),
   by decide⟩

/-- C9. The call `removeBook id` returns true exactly when `id` was a key of `books`;
afterwards `findBook id` finds nothing, every other book entry is as before, and the
borrower map and `nextId` are unchanged.  In particular, `removeBook` on the id just
returned by `addBook` returns true, and `findBook` on that id then finds nothing. -/
theorem removeBook_spec (L : Library) (id : Int) (title author isbn : String)
    (publicationYear : Int) :
    ((L.removeBook id).1 = true ↔ id ∈ L.books.keys) ∧
    (L.removeBook id).2.findBook id = none ∧
    (∀ other, other ≠ id → (L.removeBook id).2.findBook other = L.findBook other) ∧
    (L.removeBook id).2.borrowedBooks = L.borrowedBooks ∧
    (L.removeBook id).2.nextId = L.nextId ∧
    ((L.addBook title author isbn publicationYear).2.removeBook
      (L.addBook title author isbn publicationYear).1).1 = true ∧
    ((L.addBook title author isbn publicationYear).2.removeBook
      (L.addBook title author isbn publicationYear).1).2.findBook
        (L.addBook title author isbn publicationYear).1 = none := by
  have hret : ∀ (K : Library) (k : Int), (K.removeBook k).1 = true ↔ k ∈ K.books.keys := by
    intro K k
    rw [← AList.mem_keys]
    unfold Library.removeBook
    by_cases hk : k ∈ K.books <;> simp [hk]
  refine ⟨hret L id, AList.lookup_erase id L.books, ?_, rfl, rfl, ?_, AList.lookup_erase _ _⟩
  · intro other hne
    exact AList.lookup_erase_ne hne
  · rw [hret, ← AList.mem_keys]
    show L.nextId ∈ L.books.insert L.nextId _
    rw [AList.mem_insert]
    exact Or.inl rfl

/-- C9, at the state with two books where book 1 is on loan to "A": removing book 1
succeeds, book 2 and the vector of "A" stay, and removing the absent id 7 returns
false. -/
theorem removeBook_spec_witness :
    (doubleEntry.removeBook 1).1 = true ∧
    (doubleEntry.removeBook 1).2.findBook 1 = none ∧
    (doubleEntry.removeBook 1).2.findBook 2 = doubleEntry.findBook 2 ∧
    (doubleEntry.removeBook 1).2.borrowedBooks.lookup "A" = some [1, 2, 1] ∧
    (doubleEntry.removeBook 7).1 = false :=
  have h := removeBook_spec doubleEntry 1 "t" "a" "i" 2000
  ⟨h.1.mpr (by decide), h.2.1, h.2.2.1 2 (by decide), by decide, by decide⟩

/-- C10. What `printBorrowedBooks borrower` prints is exactly the ids of the vector
of `borrower`, in vector order, that `findBook` resolves, each with its book; ids
that do not resolve are passed over, and nothing is listed when the name has no
entry.  Hence after a successful `borrowBook id A` followed by `removeBook id`, the
listing for `A` has no block for `id`. -/
theorem printBorrowedBooks_spec (L : Library) (borrower : String) (now id : Int) (A : String) :
    (L.printBorrowedBooks borrower).entries
      = ((L.borrowedBooks.lookup borrower).getD []).filterMap
          (fun i => (L.findBook i).map (fun book => (i, book))) ∧
    (L.borrowedBooks.lookup borrower = none → (L.printBorrowedBooks borrower).entries = []) ∧
    ((L.borrowBook now id A).1 = true →
      ∀ e ∈ (((L.borrowBook now id A).2.removeBook id).2.printBorrowedBooks A).entries,
        e.1 ≠ id) := by
  refine ⟨?_, ?_, ?_⟩
  · unfold Library.printBorrowedBooks
    cases L.borrowedBooks.lookup borrower with
    | none => rfl
    | some ids => exact printBorrowedLoop_eq_filterMap L ids
  · intro hnone
    unfold Library.printBorrowedBooks
    rw [hnone]
  · intro _ e he heq
    have hgone : ((L.borrowBook now id A).2.removeBook id).2.findBook id = none :=
      AList.lookup_erase id _
    unfold Library.printBorrowedBooks at he
    cases hl : ((L.borrowBook now id A).2.removeBook id).2.borrowedBooks.lookup A with
    | none => rw [hl] at he; simp at he
    | some ids =>
      rw [hl] at he
      have hres := ((mem_printBorrowedLoop _ ids e).mp he).2
      rw [heq, hgone] at hres
      exact Option.noConfusion hres

/-- C10, at the one-book catalog: "A" borrows book 1, the book is removed, and the
listing for "A" is empty although the vector of "A" still holds id 1; a name
without entry gets the notice and no block. -/
theorem printBorrowedBooks_spec_witness :
    (oneBook.borrowBook 1000 1 "A").1 = true ∧
    ((oneBook.borrowBook 1000 1 "A").2.removeBook 1).2.borrowedBooks.lookup "A" = some [1] ∧
    (∀ e ∈ (((oneBook.borrowBook 1000 1 "A").2.removeBook 1).2.printBorrowedBooks "A").entries,
      e.1 ≠ 1) ∧
    (oneBook.printBorrowedBooks "B").entries = [] ∧
    (doubleEntry.printBorrowedBooks "A").entries
      = [(1, ⟨"1984", "George Orwell", "9780451524935", 1949, false, 1212600⟩),
         (2, ⟨"Moby Dick", "Herman Melville", "9781503280786", 1851, false, 1211600⟩),
         (1, ⟨"1984", "George Orwell", "9780451524935", 1949, false, 1212600⟩)] :=
  have h := printBorrowedBooks_spec oneBook "B" 1000 1 "A"
  ⟨by decide, by decide, h.2.2 (by decide), h.2.1 (by decide), by decide⟩

/-! ## Lemmas on strings and on the search -/

/-- A character that `tolower` sends to a numeral character is that character. -/
theorem tolower_eq_of_numeral_char (c d : Char) (hd : d ∈ "0123456789-".data)
    (h : tolower c = d) : c = d := by
  unfold tolower at h
  by_cases hc : 65 ≤ c.toNat ∧ c.toNat ≤ 90
  · rw [if_pos hc] at h
    exfalso
    have hall : ∀ k : Fin 26, Char.ofNat (65 + k.val + 32) ∉ "0123456789-".data := by decide
    have hk := hall ⟨c.toNat - 65, by omega⟩
    have hval : 65 + (c.toNat - 65) + 32 = c.toNat + 32 := by omega
    simp only [hval] at hk
    rw [h] at hk
    exact hk hd
  · rw [if_neg hc] at h
    exact h

/-- A character of a decimal numeral is its own `tolower`. -/
theorem tolower_numeral_char (d : Char) (hd : d ∈ "0123456789-".data) : tolower d = d := by
  have hall : ∀ x ∈ "0123456789-".data, tolower x = x := by decide
  exact hall d hd

/-- A digit of a number below ten is one of the characters `0`..`9`. -/
theorem digitChar_mem (n : Nat) : Nat.digitChar (n % 10) ∈ "0123456789-".data := by
  have hall : ∀ k : Fin 10, Nat.digitChar k.val ∈ "0123456789-".data := by decide
  exact hall ⟨n % 10, Nat.mod_lt n (by decide)⟩

/-- The digit loop of the decimal conversion only adds digit characters. -/
theorem toDigitsCore_mem (fuel : Nat) :
    ∀ (n : Nat) (ds : List Char), (∀ c ∈ ds, c ∈ "0123456789-".data) →
      ∀ c ∈ Nat.toDigitsCore 10 fuel n ds, c ∈ "0123456789-".data := by
  induction fuel with
  | zero => intro n ds hds c hc; exact hds c hc
  | succ fuel ih =>
    intro n ds hds c hc
    have hcons : ∀ x ∈ Nat.digitChar (n % 10) :: ds, x ∈ "0123456789-".data := by
      intro x hx
      rcases List.mem_cons.mp hx with hx | hx
      · rw [hx]; exact digitChar_mem n
      · exact hds x hx
    unfold Nat.toDigitsCore at hc
    by_cases hz : n / 10 = 0
    · simp only [hz, if_true] at hc
      exact hcons c hc
    · simp only [hz, if_false] at hc
      exact ih (n / 10) _ hcons c hc

/-- The string `to_string n` is written with digits and the minus sign only. -/
theorem to_string_chars (n : Int) : ∀ c ∈ (to_string n).data, c ∈ "0123456789-".data := by
  intro c hc
  cases n with
  | ofNat m =>
    exact toDigitsCore_mem (m + 1) m [] (by intro x hx; cases hx) c hc
  | negSucc m =>
    rcases List.mem_cons.mp hc with hc | hc
    · rw [hc]; decide
    · exact toDigitsCore_mem (m + 1 + 1) (m + 1) [] (by intro x hx; cases hx) c hc

/-- A list of characters whose `tolower` image is a numeral is that numeral. -/
theorem map_tolower_eq_numeral (ds : List Char) (hds : ∀ d ∈ ds, d ∈ "0123456789-".data) :
    ∀ cs : List Char, cs.map tolower = ds ↔ cs = ds := by
  induction ds with
  | nil => intro cs; simp
  | cons d rest ih =>
    intro cs
    cases cs with
    | nil => simp
    | cons c tail =>
      have hd := hds d (List.mem_cons_self d rest)
      have hrest : ∀ x ∈ rest, x ∈ "0123456789-".data :=
        fun x hx => hds x (List.mem_cons_of_mem d hx)
      simp only [List.map_cons, List.cons.injEq]
      constructor
      · rintro ⟨h1, h2⟩
        exact ⟨tolower_eq_of_numeral_char c d hd h1, (ih hrest tail).mp h2⟩
      · rintro ⟨h1, h2⟩
        exact ⟨by rw [h1]; exact tolower_numeral_char d hd, (ih hrest tail).mpr h2⟩

/-- Lowercasing the query does not change whether it is the numeral of `n`: the
test `to_string(n) == q` on the lowercased `q` is the test on the query itself. -/
theorem to_string_eq_transformToLower (n : Int) (query : String) :
    to_string n = transformToLower query ↔ query = to_string n := by
  have key := map_tolower_eq_numeral (to_string n).data (to_string_chars n) query.data
  constructor
  · intro h
    have h1 : query.data.map tolower = (to_string n).data := by rw [h]; rfl
    exact String.ext (key.mp h1)
  · intro h
    have h1 : query.data.map tolower = (to_string n).data := key.mpr (by rw [h])
    exact String.ext h1.symm

/-- The scan of `find` succeeds exactly when `q` occurs in `s` as a contiguous block. -/
theorem findFrom_ne_none_iff (q : List Char) :
    ∀ (s : List Char) (pos : Nat), findFrom q s pos ≠ none ↔ q <:+: s := by
  intro s
  induction s with
  | nil =>
    intro pos
    unfold findFrom
    by_cases hq : q = []
    · subst hq; simp
    · have hp : List.isPrefixOf q [] = false := by
        cases q with
        | nil => exact absurd rfl hq
        | cons a t => rfl
      simp [hp, hq]
  | cons c rest ih =>
    intro pos
    unfold findFrom
    rw [List.infix_cons_iff]
    by_cases hp : q.isPrefixOf (c :: rest) = true
    · rw [if_pos hp]
      simp [List.isPrefixOf_iff_prefix.mp hp]
    · rw [if_neg hp, ih (pos + 1)]
      have hnp : ¬ q <+: c :: rest := fun h => hp (List.isPrefixOf_iff_prefix.mpr h)
      simp [hnp]

/-- The call `s.find(q) != npos` holds exactly when `q` is a substring of `s`. -/
theorem find_ne_none_iff (s q : String) : find s q ≠ none ↔ q.data <:+: s.data :=
  findFrom_ne_none_iff q.data s.data 0

/-- The blocks printed by the search loop are the matching entries, in map order. -/
theorem searchLoop_entries (q : String) :
    ∀ (es : List (Sigma fun _ : Int => Book)) (found : Bool),
      (searchLoop q es found).1
        = (es.filter (fun pair => searchMatch q pair.1 pair.2)).map
            (fun pair => (pair.1, pair.2)) := by
  intro es
  induction es with
  | nil => intro found; rfl
  | cons pair rest ih =>
    intro found
    obtain ⟨id, book⟩ := pair
    by_cases hm : searchMatch q id book = true
    · simp [searchLoop, hm, ih true]
    · simp [searchLoop, hm, ih found]

/-- The flag `found` ends up true exactly when it was true or a block was printed. -/
theorem searchLoop_found (q : String) :
    ∀ (es : List (Sigma fun _ : Int => Book)) (found : Bool),
      (searchLoop q es found).2 = (found || !(searchLoop q es found).1.isEmpty) := by
  intro es
  induction es with
  | nil => intro found; simp [searchLoop]
  | cons pair rest ih =>
    intro found
    obtain ⟨id, book⟩ := pair
    by_cases hm : searchMatch q id book = true
    · simp [searchLoop, hm, ih true]
    · simp [searchLoop, hm, ih found]

/-- An entry of the underlying list of `books` is a pair that `findBook` resolves. -/
theorem mem_entries_iff_findBook (L : Library) (id : Int) (book : Book) :
    (⟨id, book⟩ : Sigma fun _ : Int => Book) ∈ L.books.entries ↔ L.findBook id = some book := by
  unfold Library.findBook
  rw [← AList.mem_lookup_iff]
  exact Option.mem_def

/-- The ids of a filtered part of the entries of `books` are pairwise distinct. -/
theorem filter_entries_ids_nodup (L : Library) (p : (Sigma fun _ : Int => Book) → Bool) :
    (((L.books.entries.filter p).map (fun pair => ((pair.1, pair.2) : Int × Book))).map
      Prod.fst).Nodup := by
  rw [List.map_map]
  have hsub : ((L.books.entries.filter p).map Sigma.fst).Sublist (L.books.entries.map Sigma.fst) :=
    (List.filter_sublist L.books.entries).map Sigma.fst
  exact List.Nodup.sublist hsub L.books.nodupKeys

/-- The condition tested in the loop of `searchBooks`, on the lowercased query,
holds exactly when the entry matches the query by the rule of the specification. -/
theorem searchMatch_iff (query : String) (id : Int) (book : Book) :
    searchMatch (transformToLower query) id book = true ↔ matchesQuery query id book := by
  unfold searchMatch matchesQuery Book.getTitle Book.getAuthor Book.getISBN
    Book.getPublicationYear
  simp only [Bool.or_eq_true, bne_iff_ne, beq_iff_eq, find_ne_none_iff,
    to_string_eq_transformToLower, ne_eq]
  tauto

/-- A pair is printed by `searchBooks` exactly when it is an entry of `books` that
matches the query. -/
theorem mem_searchBooks_iff (L : Library) (query : String) (e : Int × Book) :
    e ∈ (L.searchBooks query).entries ↔
      L.findBook e.1 = some e.2 ∧ matchesQuery query e.1 e.2 := by
  unfold Library.searchBooks
  simp only [searchLoop_entries, List.mem_map, List.mem_filter]
  constructor
  · rintro ⟨⟨id, book⟩, ⟨hmem, hmatch⟩, rfl⟩
    exact ⟨(mem_entries_iff_findBook L id book).mp hmem,
      (searchMatch_iff query id book).mp hmatch⟩
  · rintro ⟨hfind, hmatch⟩
    exact ⟨⟨e.1, e.2⟩, ⟨(mem_entries_iff_findBook L e.1 e.2).mpr hfind,
      (searchMatch_iff query e.1 e.2).mpr hmatch⟩, rfl⟩

/-- C11. For every library state and query, the pairs reported by `searchBooks` are
exactly the entries `(id, book)` of `books` for which the lowercased query is a
substring of the lowercased title, author or isbn, or the query itself is the
decimal string of the id or of the publication year; no id is reported twice, and
nothing is reported exactly when no entry matches. -/
theorem searchBooks_spec (L : Library) (query : String) :
    (∀ e : Int × Book, e ∈ (L.searchBooks query).entries ↔
      L.findBook e.1 = some e.2 ∧
        ((transformToLower query).data <:+: (transformToLower e.2.title).data ∨
         (transformToLower query).data <:+: (transformToLower e.2.author).data ∨
         (transformToLower query).data <:+: (transformToLower e.2.isbn).data ∨
         query = to_string e.1 ∨
         query = to_string e.2.publicationYear)) ∧
    ((L.searchBooks query).entries.map Prod.fst).Nodup ∧
    ((L.searchBooks query).entries = [] ↔
      ∀ id book, L.findBook id = some book → ¬ matchesQuery query id book) := by
  refine ⟨fun e => mem_searchBooks_iff L query e, ?_, ?_⟩
  · unfold Library.searchBooks
    simp only [searchLoop_entries]
    exact filter_entries_ids_nodup L _
  · constructor
    · intro hempty id book hfind hmatch
      have hmem : (id, book) ∈ (L.searchBooks query).entries :=
        (mem_searchBooks_iff L query (id, book)).mpr ⟨hfind, hmatch⟩
      rw [hempty] at hmem
      exact List.not_mem_nil _ hmem
    · intro hnone
      apply List.eq_nil_iff_forall_not_mem.mpr
      intro e he
      have h := (mem_searchBooks_iff L query e).mp he
      exact hnone e.1 e.2 h.1 h.2

/-- C11, at the one-book catalog: the query "ORWELL" reports book 1 through its
author, the query "1949" through its publication year. -/
theorem searchBooks_spec_witness :
    ((1 : Int), Book.new "1984" "George Orwell" "9780451524935" 1949)
      ∈ (oneBook.searchBooks "ORWELL").entries ∧
    ((1 : Int), Book.new "1984" "George Orwell" "9780451524935" 1949)
      ∈ (oneBook.searchBooks "1949").entries ∧
    (oneBook.searchBooks "Tolkien").entries = [] :=
  ⟨((searchBooks_spec oneBook "ORWELL").1 _).mpr ⟨by decide, Or.inr (Or.inl (by decide))⟩,
   ((searchBooks_spec oneBook "1949").1 _).mpr
     ⟨by decide, Or.inr (Or.inr (Or.inr (Or.inr (by decide))))⟩,
   by decide⟩

/-- C12. On the catalog that `preloadBooks` builds from the fresh library (ten books
under the ids 1 to 10), `searchBooks "1984"` reports exactly one block: id 3, the
book titled "1984". -/
theorem searchBooks_1984_seeded :
    (preloadBooks Library.new).books.keys = [10, 9, 8, 7, 6, 5, 4, 3, 2, 1] ∧
    (preloadBooks Library.new).searchBooks "1984"
      = { entries := [(3, Book.new "1984" "George Orwell" "9780451524935" 1949)],
          notice := none } := by
  constructor
  · decide
  · decide

/-- A book of the catalog is reported by `searchBooks` exactly when it matches. -/
theorem reported_iff_matches (L : Library) (query : String) (id : Int) (book : Book)
    (hfind : L.findBook id = some book) :
    (∃ e ∈ (L.searchBooks query).entries, e.1 = id) ↔ matchesQuery query id book := by
  constructor
  · rintro ⟨e, he, heq⟩
    have h := (mem_searchBooks_iff L query e).mp he
    rw [heq] at h
    have hsame : e.2 = book := Option.some.inj (h.1.symm.trans hfind)
    rw [← hsame]
    exact h.2
  · intro hmatch
    exact ⟨(id, book), (mem_searchBooks_iff L query (id, book)).mpr ⟨hfind, hmatch⟩, rfl⟩

/-- C14. The search is case-insensitive: two queries with the same lowercased form
give the same report, and replacing the title, author and isbn of a book by strings
with the same lowercased forms does not change whether that book is reported, for
any query. -/
theorem searchBooks_case_insensitive (L : Library) (q1 q2 query : String) (id : Int)
    (book : Book) (title author isbn : String) :
    (transformToLower q1 = transformToLower q2 → L.searchBooks q1 = L.searchBooks q2) ∧
    (L.findBook id = some book →
      transformToLower title = transformToLower book.title →
      transformToLower author = transformToLower book.author →
      transformToLower isbn = transformToLower book.isbn →
      ((∃ e ∈ (Library.searchBooks
            { L with
              books := L.books.replace id
                ({ book with title := title, author := author, isbn := isbn } : Book) }
            query).entries,
          e.1 = id) ↔
        (∃ e ∈ (L.searchBooks query).entries, e.1 = id))) := by
  constructor
  · intro hq
    unfold Library.searchBooks
    rw [hq]
  · intro hfind ht ha hi
    have hnew : Library.findBook
        { L with
          books := L.books.replace id
            ({ book with title := title, author := author, isbn := isbn } : Book) } id
        = some { book with title := title, author := author, isbn := isbn } :=
      lookup_replace_self L.books id _ (mem_of_lookup_eq_some L.books id book hfind)
    rw [reported_iff_matches _ query id _ hnew, reported_iff_matches L query id book hfind]
    unfold matchesQuery
    simp only [ht, ha, hi]

/-- C14, at the one-book catalog: "orwell" and "ORWELL" give the same report, and
book 1 is still reported for "orwell" when its author is written in capitals. -/
theorem searchBooks_case_insensitive_witness :
    oneBook.searchBooks "orwell" = oneBook.searchBooks "ORWELL" ∧
    ((∃ e ∈ (Library.searchBooks
          { oneBook with
            books := oneBook.books.replace 1
              ({ Book.new "1984" "George Orwell" "9780451524935" 1949 with
                 title := "1984", author := "GEORGE ORWELL", isbn := "9780451524935" } : Book) }
          "orwell").entries, e.1 = 1) ↔
      (∃ e ∈ (oneBook.searchBooks "orwell").entries, e.1 = 1)) ∧
    (∃ e ∈ (oneBook.searchBooks "orwell").entries, e.1 = 1) :=
  have h := searchBooks_case_insensitive oneBook "orwell" "ORWELL" "orwell" 1
    (Book.new "1984" "George Orwell" "9780451524935" 1949)
    "1984" "GEORGE ORWELL" "9780451524935"
  ⟨h.1 (by decide), h.2 (by decide) (by decide) (by decide) (by decide),
   ⟨(1, Book.new "1984" "George Orwell" "9780451524935" 1949), by decide, rfl⟩⟩

/-- The loop of `printAvailableBooks` keeps the entries whose book is available. -/
theorem printAvailableLoop_eq_filter (es : List (Sigma fun _ : Int => Book)) :
    printAvailableLoop es
      = (es.map (fun pair => ((pair.1, pair.2) : Int × Book))).filter
          (fun e => e.2.getAvailability) := by
  induction es with
  | nil => rfl
  | cons pair rest ih =>
    obtain ⟨id, book⟩ := pair
    by_cases hb : book.getAvailability = true
    · simp [printAvailableLoop, hb, ih]
    · simp [printAvailableLoop, hb, ih]

/-- A pair is printed by `printAllBooks` exactly when `findBook` resolves it. -/
theorem mem_printAllBooks_iff (L : Library) (e : Int × Book) :
    e ∈ L.printAllBooks.entries ↔ L.findBook e.1 = some e.2 := by
  unfold Library.printAllBooks
  simp only [List.mem_map]
  constructor
  · rintro ⟨⟨id, book⟩, hmem, rfl⟩
    exact (mem_entries_iff_findBook L id book).mp hmem
  · intro hfind
    exact ⟨⟨e.1, e.2⟩, (mem_entries_iff_findBook L e.1 e.2).mpr hfind, rfl⟩

/-- C15. What `printAvailableBooks` prints is exactly the entries `(id, book)` of
`books` whose book is available, no id twice, and it is what `printAllBooks` prints
(every entry of `books`) filtered to the available books.  Both are `const` member
functions: they yield a report and no new state. -/
theorem printAvailableBooks_spec (L : Library) :
    (∀ e : Int × Book, e ∈ L.printAvailableBooks.entries ↔
      L.findBook e.1 = some e.2 ∧ e.2.getAvailability = true) ∧
    (L.printAvailableBooks.entries.map Prod.fst).Nodup ∧
    L.printAvailableBooks.entries
      = L.printAllBooks.entries.filter (fun e => e.2.getAvailability) ∧
    (∀ e : Int × Book, e ∈ L.printAllBooks.entries ↔ L.findBook e.1 = some e.2) := by
  have hfilter : L.printAvailableBooks.entries
      = L.printAllBooks.entries.filter (fun e => e.2.getAvailability) :=
    printAvailableLoop_eq_filter L.books.entries
  refine ⟨?_, ?_, hfilter, mem_printAllBooks_iff L⟩
  · intro e
    rw [hfilter, List.mem_filter, mem_printAllBooks_iff]
  · rw [hfilter]
    have hall : (L.printAllBooks.entries.map Prod.fst).Nodup := by
      unfold Library.printAllBooks
      simp only [List.map_map]
      exact L.books.nodupKeys
    exact List.Nodup.sublist ((List.filter_sublist _).map Prod.fst) hall

/-- C15, at the state with two books on loan and at the seeded catalog with book 3
on loan. -/
theorem printAvailableBooks_spec_witness :
    doubleEntry.printAvailableBooks.entries = [] ∧
    doubleEntry.printAllBooks.entries.map Prod.fst = [2, 1] ∧
    (((preloadBooks Library.new).borrowBook 1000 3 "A").2.printAvailableBooks.entries.map
      Prod.fst) = [10, 9, 8, 7, 6, 5, 4, 2, 1] ∧
    ((3 : Int), Book.new "1984" "George Orwell" "9780451524935" 1949)
      ∈ (preloadBooks Library.new).printAvailableBooks.entries :=
  ⟨by decide, by decide, by decide,
   ((printAvailableBooks_spec (preloadBooks Library.new)).1 _).mpr ⟨by decide, by decide⟩⟩

/-- C20. With the empty query, `searchBooks` reports every entry of `books` (the empty
string is found in every title), so the notice "No books found" is printed for the
empty query exactly when the catalog is empty. -/
theorem searchBooks_empty_query (L : Library) :
    (L.searchBooks "").entries = L.printAllBooks.entries ∧
    (∀ id book, L.findBook id = some book → (id, book) ∈ (L.searchBooks "").entries) ∧
    ((L.searchBooks "").notice = some "No books found matching the query.\n" ↔
      L.books.entries = []) ∧
    ((L.searchBooks "").notice = none ↔ L.books.entries ≠ []) := by
  have hmatch : ∀ (id : Int) (book : Book), searchMatch (transformToLower "") id book = true := by
    intro id book
    rw [searchMatch_iff]
    exact Or.inl List.nil_infix
  have hentries : (L.searchBooks "").entries = L.printAllBooks.entries := by
    unfold Library.searchBooks Library.printAllBooks
    simp only [searchLoop_entries]
    congr 1
    apply List.filter_eq_self.mpr
    intro pair _
    exact hmatch pair.1 pair.2
  have hfound : (searchLoop (transformToLower "") L.books.entries false).2
      = !L.books.entries.isEmpty := by
    rw [searchLoop_found]
    have h := hentries
    unfold Library.searchBooks Library.printAllBooks at h
    simp only at h
    rw [h]
    cases L.books.entries <;> rfl
  refine ⟨hentries, ?_, ?_, ?_⟩
  · intro id book hfind
    rw [hentries]
    exact (mem_printAllBooks_iff L (id, book)).mpr hfind
  · unfold Library.searchBooks
    simp only [hfound]
    cases L.books.entries <;> simp
  · unfold Library.searchBooks
    simp only [hfound]
    cases L.books.entries <;> simp

/-- C20, at the fresh library (empty catalog, notice printed) and at the one-book
catalog (the book is reported, no notice). -/
theorem searchBooks_empty_query_witness :
    Library.new.searchBooks "" = ⟨[], some "No books found matching the query.\n"⟩ ∧
    oneBook.searchBooks ""
      = ⟨[(1, Book.new "1984" "George Orwell" "9780451524935" 1949)], none⟩ ∧
    ((1 : Int), Book.new "1984" "George Orwell" "9780451524935" 1949)
      ∈ (oneBook.searchBooks "").entries :=
  ⟨by decide, by decide, (searchBooks_empty_query oneBook).2.1 1 _ (by decide)⟩

/-! ## Lemmas on single calls and on runs -/

/-- The final state of a run is the final state of the rest of the run from the
state after the first call. -/
theorem run_cons_state (L : Library) (c : Call) (rest : List Call) :
    (L.run (c :: rest)).2 = ((L.call c).2.run rest).2 := by
  show (match (L.call c).1 with
    | some id => (id :: ((L.call c).2.run rest).1, ((L.call c).2.run rest).2)
    | none => (((L.call c).2.run rest).1, ((L.call c).2.run rest).2)).2 = _
  cases (L.call c).1 <;> rfl

/-- Counting the `addBook` calls of a sequence, first call apart. -/
theorem countAddBook_cons (c : Call) (rest : List Call) :
    countAddBook (c :: rest) = countAddBook [c] + countAddBook rest := by
  cases c <;> simp [countAddBook, Nat.add_comm]

/-- A failing `borrowBook` returns the state it was given. -/
theorem borrowBook_state_of_false (L : Library) (now id : Int) (borrower : String)
    (h : (L.borrowBook now id borrower).1 = false) : (L.borrowBook now id borrower).2 = L := by
  cases hfind : L.findBook id with
  | none => rw [borrowBook_of_missing L now id borrower hfind]
  | some book =>
    cases havail : book.getAvailability with
    | false => rw [borrowBook_of_unavailable L now id borrower book hfind havail]
    | true =>
      rw [borrowBook_of_available L now id borrower book hfind havail] at h
      exact Bool.noConfusion h

/-- The call `borrowBook id` does not touch the books under other ids. -/
theorem findBook_borrowBook_of_ne (L : Library) (now id other : Int) (borrower : String)
    (hne : other ≠ id) :
    (L.borrowBook now id borrower).2.findBook other = L.findBook other := by
  cases hfind : L.findBook id with
  | none => rw [borrowBook_of_missing L now id borrower hfind]
  | some book =>
    cases havail : book.getAvailability with
    | false => rw [borrowBook_of_unavailable L now id borrower book hfind havail]
    | true =>
      rw [borrowBook_of_available L now id borrower book hfind havail]
      exact lookup_replace_ne L.books id other _ hne

/-- The call `returnBook id` does not touch the books under other ids. -/
theorem findBook_returnBook_of_ne (L : Library) (id other : Int) (borrower : String)
    (hne : other ≠ id) :
    (L.returnBook id borrower).2.findBook other = L.findBook other := by
  cases hfind : L.findBook id with
  | none => rw [returnBook_of_missing L id borrower hfind]
  | some book =>
    cases havail : book.getAvailability with
    | true => rw [returnBook_of_available L id borrower book hfind havail]
    | false =>
      rw [returnBook_of_unavailable L id borrower book hfind havail]
      exact lookup_replace_ne L.books id other _ hne

/-- After a successful `returnBook`, `findBook` yields the book marked available,
its other fields as before. -/
theorem findBook_returnBook (L : Library) (id : Int) (borrower : String) (book : Book)
    (hfind : L.findBook id = some book) (havail : book.getAvailability = false) :
    (L.returnBook id borrower).2.findBook id = some { book with isAvailable := true } := by
  rw [returnBook_of_unavailable L id borrower book hfind havail]
  exact lookup_replace_self L.books id _ (mem_of_lookup_eq_some L.books id book hfind)

/-- The call `borrowBook` keeps the set of keys of `books`. -/
theorem mem_books_borrowBook (L : Library) (now id k : Int) (borrower : String) :
    k ∈ (L.borrowBook now id borrower).2.books ↔ k ∈ L.books := by
  cases hfind : L.findBook id with
  | none => rw [borrowBook_of_missing L now id borrower hfind]
  | some book =>
    cases havail : book.getAvailability with
    | false => rw [borrowBook_of_unavailable L now id borrower book hfind havail]
    | true =>
      rw [borrowBook_of_available L now id borrower book hfind havail]
      exact AList.mem_replace

/-- The call `returnBook` keeps the set of keys of `books`. -/
theorem mem_books_returnBook (L : Library) (id k : Int) (borrower : String) :
    k ∈ (L.returnBook id borrower).2.books ↔ k ∈ L.books := by
  cases hfind : L.findBook id with
  | none => rw [returnBook_of_missing L id borrower hfind]
  | some book =>
    cases havail : book.getAvailability with
    | true => rw [returnBook_of_available L id borrower book hfind havail]
    | false =>
      rw [returnBook_of_unavailable L id borrower book hfind havail]
      exact AList.mem_replace

/-- The counter after one call: one more after `addBook` (when the increment does
not overflow), unchanged after the other calls. -/
theorem call_nextId (L : Library) (c : Call) (hlo : INT_MIN ≤ L.nextId)
    (hhi : L.nextId + (countAddBook [c] : Int) ≤ INT_MAX) :
    (L.call c).2.nextId = L.nextId + (countAddBook [c] : Int) := by
  cases c with
  | addBook title author isbn publicationYear =>
    have hone : (countAddBook [Call.addBook title author isbn publicationYear] : Int) = 1 := rfl
    rw [hone] at hhi ⊢
    show wrapInt (L.nextId + 1) = L.nextId + 1
    exact wrapInt_of_inRange _ (by omega) hhi
  | removeBook id => show L.nextId = L.nextId + ((0 : Nat) : Int); simp
  | borrowBook now id borrower =>
    show (L.borrowBook now id borrower).2.nextId = L.nextId + ((0 : Nat) : Int)
    rw [borrowBook_nextId]; simp
  | returnBook id borrower =>
    show (L.returnBook id borrower).2.nextId = L.nextId + ((0 : Nat) : Int)
    rw [returnBook_nextId]; simp

/-- One call keeps every key of `books` in the range from 1 up to the counter. -/
theorem call_keys_bound (L : Library) (c : Call) (hlo : 1 ≤ L.nextId)
    (hhi : L.nextId + (countAddBook [c] : Int) ≤ INT_MAX)
    (hk : ∀ k, k ∈ L.books → 1 ≤ k ∧ k < L.nextId) :
    ∀ k, k ∈ (L.call c).2.books → 1 ≤ k ∧ k < (L.call c).2.nextId := by
  have hmin : INT_MIN ≤ L.nextId := by unfold INT_MIN; omega
  intro k hmem
  rw [call_nextId L c hmin hhi]
  have hnn := Int.ofNat_nonneg (countAddBook [c])
  cases c with
  | addBook title author isbn publicationYear =>
    have hone : (countAddBook [Call.addBook title author isbn publicationYear] : Int) = 1 := rfl
    rw [hone]
    have hmem' : k ∈ L.books.insert L.nextId (Book.new title author isbn publicationYear) := hmem
    rcases (AList.mem_insert L.books).mp hmem' with heq | hold
    · rw [heq]; omega
    · have := hk k hold; omega
  | removeBook id =>
    have hmem' : k ∈ L.books.erase id := hmem
    have := hk k (AList.mem_erase.mp hmem').2
    omega
  | borrowBook now id borrower =>
    have := hk k ((mem_books_borrowBook L now id k borrower).mp hmem)
    omega
  | returnBook id borrower =>
    have := hk k ((mem_books_returnBook L id k borrower).mp hmem)
    omega

/-- A run without overflow of the counter keeps every key of `books` in the range
from 1 up to the counter, and the counter has advanced by the number of `addBook`
calls. -/
theorem run_keys_bound (calls : List Call) :
    ∀ L : Library, 1 ≤ L.nextId → L.nextId + (countAddBook calls : Int) ≤ INT_MAX →
      (∀ k, k ∈ L.books → 1 ≤ k ∧ k < L.nextId) →
      (L.run calls).2.nextId = L.nextId + (countAddBook calls : Int) ∧
      ∀ k, k ∈ (L.run calls).2.books → 1 ≤ k ∧ k < (L.run calls).2.nextId := by
  induction calls with
  | nil =>
    intro L _ _ hk
    exact ⟨by show L.nextId = L.nextId + ((0 : Nat) : Int); simp, hk⟩
  | cons c rest ih =>
    intro L hlo hhi hk
    rw [countAddBook_cons] at hhi ⊢
    push_cast at hhi ⊢
    have hn1 := Int.ofNat_nonneg (countAddBook [c])
    have hn2 := Int.ofNat_nonneg (countAddBook rest)
    have hmin : INT_MIN ≤ L.nextId := by unfold INT_MIN; omega
    have hnext := call_nextId L c hmin (by omega)
    have hkeys := call_keys_bound L c hlo (by omega) hk
    have hrec := ih (L.call c).2 (by rw [hnext]; omega) (by rw [hnext]; omega) hkeys
    rw [run_cons_state]
    refine ⟨?_, hrec.2⟩
    rw [hrec.1, hnext]
    ring

/-- In a state reached from the fresh library without overflow of the counter, the
keys of `books` lie from 1 up to the counter. -/
theorem reachable_keys_bound (calls : List Call) (h : (countAddBook calls : Int) < INT_MAX) :
    ∀ k, k ∈ (Library.new.run calls).2.books →
      1 ≤ k ∧ k < (Library.new.run calls).2.nextId := by
  have hhi : Library.new.nextId + (countAddBook calls : Int) ≤ INT_MAX := by
    show (1 : Int) + (countAddBook calls : Int) ≤ INT_MAX
    omega
  exact (run_keys_bound calls Library.new (le_refl _) hhi
    (fun k hk => absurd hk (AList.not_mem_empty k))).2

/-- In a state reached from the fresh library without overflow of the counter, the
next id to be issued is not a key of `books`. -/
theorem reachable_nextId_fresh (calls : List Call) (h : (countAddBook calls : Int) < INT_MAX) :
    (Library.new.run calls).2.nextId ∉ (Library.new.run calls).2.books := by
  intro hmem
  have := reachable_keys_bound calls h _ hmem
  omega

/-- What one call does to a book that is present before and after it, when the next
id is not a key of `books`: nothing, or a successful `borrowBook` of that id marks it
unavailable and sets its due date, or a successful `returnBook` of that id marks it
available. -/
theorem call_effect_on_book (L : Library) (c : Call) (id : Int) (before after : Book)
    (hfresh : L.nextId ∉ L.books)
    (hb : L.findBook id = some before) (ha : (L.call c).2.findBook id = some after) :
    after = before ∨
    (∃ now who, c = Call.borrowBook now id who ∧ (L.borrowBook now id who).1 = true ∧
      before.isAvailable = true ∧
      after = { before with isAvailable := false, dueDate := wrapTime (now + 1209600) }) ∨
    (∃ who, c = Call.returnBook id who ∧ (L.returnBook id who).1 = true ∧
      before.isAvailable = false ∧ after = { before with isAvailable := true }) := by
  cases c with
  | addBook title author isbn publicationYear =>
    left
    have hne : id ≠ L.nextId := by
      intro heq
      rw [heq] at hb
      exact hfresh (mem_of_lookup_eq_some L.books _ before hb)
    have hsame : (L.call (Call.addBook title author isbn publicationYear)).2.findBook id
        = L.findBook id := AList.lookup_insert_ne hne
    rw [hsame, hb] at ha
    exact (Option.some.inj ha).symm
  | removeBook i =>
    left
    have hne : id ≠ i := by
      intro heq
      have hnone : (L.call (Call.removeBook i)).2.findBook id = none := by
        rw [heq]; exact AList.lookup_erase i L.books
      rw [hnone] at ha
      exact Option.noConfusion ha
    have hsame : (L.call (Call.removeBook i)).2.findBook id = L.findBook id :=
      AList.lookup_erase_ne hne
    rw [hsame, hb] at ha
    exact (Option.some.inj ha).symm
  | borrowBook now i who =>
    have ha' : (L.borrowBook now i who).2.findBook id = some after := ha
    by_cases hne : id = i
    · subst hne
      cases havail : before.getAvailability with
      | false =>
        left
        rw [borrowBook_of_unavailable L now id who before hb havail, hb] at ha'
        exact (Option.some.inj ha').symm
      | true =>
        right; left
        rw [findBook_borrowBook L now id who before hb havail] at ha'
        refine ⟨now, who, rfl, ?_, havail, (Option.some.inj ha').symm⟩
        rw [borrowBook_of_available L now id who before hb havail]
    · left
      rw [findBook_borrowBook_of_ne L now i id who hne, hb] at ha'
      exact (Option.some.inj ha').symm
  | returnBook i who =>
    have ha' : (L.returnBook i who).2.findBook id = some after := ha
    by_cases hne : id = i
    · subst hne
      cases havail : before.getAvailability with
      | true =>
        left
        rw [returnBook_of_available L id who before hb havail, hb] at ha'
        exact (Option.some.inj ha').symm
      | false =>
        right; right
        rw [findBook_returnBook L id who before hb havail] at ha'
        refine ⟨who, rfl, ?_, havail, (Option.some.inj ha').symm⟩
        rw [returnBook_of_unavailable L id who before hb havail]
    · left
      rw [findBook_returnBook_of_ne L i id who hne, hb] at ha'
      exact (Option.some.inj ha').symm

/-- An id that is absent and is not the next id to be issued stays absent after one
call. -/
theorem call_findBook_none (L : Library) (c : Call) (id : Int) (hne : id ≠ L.nextId)
    (hnone : L.findBook id = none) : (L.call c).2.findBook id = none := by
  cases c with
  | addBook title author isbn publicationYear =>
    have hsame : (L.call (Call.addBook title author isbn publicationYear)).2.findBook id
        = L.findBook id := AList.lookup_insert_ne hne
    rw [hsame, hnone]
  | removeBook i =>
    by_cases hi : id = i
    · rw [hi]; exact AList.lookup_erase i L.books
    · have hsame : (L.call (Call.removeBook i)).2.findBook id = L.findBook id :=
        AList.lookup_erase_ne hi
      rw [hsame, hnone]
  | borrowBook now i who =>
    show (L.borrowBook now i who).2.findBook id = none
    by_cases hi : id = i
    · subst hi
      rw [borrowBook_of_missing L now id who hnone, hnone]
    · rw [findBook_borrowBook_of_ne L now i id who hi, hnone]
  | returnBook i who =>
    show (L.returnBook i who).2.findBook id = none
    by_cases hi : id = i
    · subst hi
      rw [returnBook_of_missing L id who hnone, hnone]
    · rw [findBook_returnBook_of_ne L i id who hi, hnone]

/-- An id below the counter that is absent stays absent through every run in which
the counter does not overflow. -/
theorem run_findBook_none (id : Int) (calls : List Call) :
    ∀ L : Library, INT_MIN ≤ L.nextId → L.nextId + (countAddBook calls : Int) ≤ INT_MAX →
      id < L.nextId → L.findBook id = none → (L.run calls).2.findBook id = none := by
  induction calls with
  | nil => intro L _ _ _ hnone; exact hnone
  | cons c rest ih =>
    intro L hlo hhi hlt hnone
    rw [countAddBook_cons] at hhi
    push_cast at hhi
    have hn1 := Int.ofNat_nonneg (countAddBook [c])
    have hn2 := Int.ofNat_nonneg (countAddBook rest)
    have hnext := call_nextId L c hlo (by omega)
    rw [run_cons_state]
    exact ih (L.call c).2 (by rw [hnext]; omega) (by rw [hnext]; omega)
      (by rw [hnext]; omega) (call_findBook_none L c id (by omega) hnone)

/-! ## The claims on reachable states -/

/-- C13. In every state reached from the fresh library by `addBook`, `removeBook`,
`borrowBook` and `returnBook` calls without overflow of the `int` counter, every key
of `books` lies in `1 <= key < nextId`.  So ids are not reused: the id that `addBook`
returns is not a key before the call and `addBook` leaves every existing book as it
is, and once `removeBook id` has returned true, `findBook id` finds nothing in every
later state (the counter still not overflowing). -/
theorem ids_never_reused (calls later : List Call) (id : Int) (title author isbn : String)
    (publicationYear : Int) (h : (countAddBook calls : Int) < INT_MAX) :
    (∀ k ∈ (Library.new.run calls).2.books.keys,
      1 ≤ k ∧ k < (Library.new.run calls).2.nextId) ∧
    ((Library.new.run calls).2.addBook title author isbn publicationYear).1
      ∉ (Library.new.run calls).2.books.keys ∧
    (∀ k ∈ (Library.new.run calls).2.books.keys,
      ((Library.new.run calls).2.addBook title author isbn publicationYear).2.findBook k
        = (Library.new.run calls).2.findBook k) ∧
    ((countAddBook calls : Int) + (countAddBook later : Int) < INT_MAX →
      ((Library.new.run calls).2.removeBook id).1 = true →
      (((Library.new.run calls).2.removeBook id).2.run later).2.findBook id = none) := by
  have hbound := reachable_keys_bound calls h
  have hfresh := reachable_nextId_fresh calls h
  refine ⟨?_, ?_, ?_, ?_⟩
  · intro k hk
    exact hbound k (AList.mem_keys.mpr hk)
  · intro hk
    exact hfresh (AList.mem_keys.mpr hk)
  · intro k hk
    have hne : k ≠ (Library.new.run calls).2.nextId := by
      intro heq
      rw [heq] at hk
      exact hfresh (AList.mem_keys.mpr hk)
    exact AList.lookup_insert_ne hne
  · intro hroom hremoved
    have hnext : (Library.new.run calls).2.nextId = 1 + (countAddBook calls : Int) :=
      (run_keys_bound calls Library.new (le_refl _)
        (by show (1 : Int) + (countAddBook calls : Int) ≤ INT_MAX; omega)
        (fun k hk => absurd hk (AList.not_mem_empty k))).1
    have hmem : id ∈ (Library.new.run calls).2.books := by
      by_contra hno
      have hfalse : ((Library.new.run calls).2.removeBook id).1 = false := by
        unfold Library.removeBook
        simp [hno]
      rw [hfalse] at hremoved
      exact Bool.noConfusion hremoved
    have hlt := (hbound id hmem).2
    have hn1 := Int.ofNat_nonneg (countAddBook calls)
    apply run_findBook_none id later ((Library.new.run calls).2.removeBook id).2
    · show INT_MIN ≤ (Library.new.run calls).2.nextId
      rw [hnext]; unfold INT_MIN; omega
    · show (Library.new.run calls).2.nextId + (countAddBook later : Int) ≤ INT_MAX
      rw [hnext]; omega
    · exact hlt
    · exact AList.lookup_erase id _

/-- C13, at a run that adds two books and removes the first: the keys are below the
counter, and book 1 stays absent after a further `addBook`, which gets id 3. -/
theorem ids_never_reused_witness :
    (countAddBook [.addBook "a" "b" "c" 1, .addBook "d" "e" "f" 2] : Int) < INT_MAX ∧
    (Library.new.run [.addBook "a" "b" "c" 1, .addBook "d" "e" "f" 2]).2.books.keys = [2, 1] ∧
    (Library.new.run [.addBook "a" "b" "c" 1, .addBook "d" "e" "f" 2]).2.nextId = 3 ∧
    (∀ k ∈ (Library.new.run [.addBook "a" "b" "c" 1, .addBook "d" "e" "f" 2]).2.books.keys,
      1 ≤ k ∧ k < (Library.new.run [.addBook "a" "b" "c" 1, .addBook "d" "e" "f" 2]).2.nextId) ∧
    ((Library.new.run [.addBook "a" "b" "c" 1, .addBook "d" "e" "f" 2]).2.removeBook 1).1
      = true ∧
    (((Library.new.run [.addBook "a" "b" "c" 1, .addBook "d" "e" "f" 2]).2.removeBook 1).2.run
      [.addBook "g" "h" "i" 3, .borrowBook 10 1 "A"]).2.findBook 1 = none :=
  have h := ids_never_reused [.addBook "a" "b" "c" 1, .addBook "d" "e" "f" 2]
    [.addBook "g" "h" "i" 3, .borrowBook 10 1 "A"] 1 "g" "h" "i" 3 (by decide)
  ⟨by decide, by decide, by decide, h.1, by decide, h.2.2.2 (by decide) (by decide)⟩

/-- C16. For every call of `addBook`, `removeBook`, `borrowBook` or `returnBook` made
in a state reached from the fresh library without overflow of the counter, and every
id that is a key of `books` before and after the call, the book under that id has
the same title, author, isbn and publication year after the call as before.  (The
find, list and search member functions are `const`: they yield no new state.) -/
theorem bibliographic_fields_immutable (calls : List Call) (c : Call) (id : Int)
    (before after : Book) (h : (countAddBook calls : Int) < INT_MAX)
    (hb : (Library.new.run calls).2.findBook id = some before)
    (ha : ((Library.new.run calls).2.call c).2.findBook id = some after) :
    after.title = before.title ∧ after.author = before.author ∧
    after.isbn = before.isbn ∧ after.publicationYear = before.publicationYear := by
  rcases call_effect_on_book _ c id before after (reachable_nextId_fresh calls h) hb ha with
    hsame | ⟨now, who, _, _, _, hloan⟩ | ⟨who, _, _, _, hback⟩
  · rw [hsame]; exact ⟨rfl, rfl, rfl, rfl⟩
  · rw [hloan]; exact ⟨rfl, rfl, rfl, rfl⟩
  · rw [hback]; exact ⟨rfl, rfl, rfl, rfl⟩

/-- C16, at the one-book catalog, for a `borrowBook` of book 1. -/
theorem bibliographic_fields_immutable_witness :
    (Library.new.run [.addBook "1984" "George Orwell" "9780451524935" 1949]).2.findBook 1
      = some (Book.new "1984" "George Orwell" "9780451524935" 1949) ∧
    ((Library.new.run [.addBook "1984" "George Orwell" "9780451524935" 1949]).2.call
      (.borrowBook 1000 1 "A")).2.findBook 1
      = some ⟨"1984", "George Orwell", "9780451524935", 1949, false, 1210600⟩ ∧
    ((Book.mk "1984" "George Orwell" "9780451524935" 1949 false 1210600).title
        = (Book.new "1984" "George Orwell" "9780451524935" 1949).title ∧
      (Book.mk "1984" "George Orwell" "9780451524935" 1949 false 1210600).author
        = (Book.new "1984" "George Orwell" "9780451524935" 1949).author ∧
      (Book.mk "1984" "George Orwell" "9780451524935" 1949 false 1210600).isbn
        = (Book.new "1984" "George Orwell" "9780451524935" 1949).isbn ∧
      (Book.mk "1984" "George Orwell" "9780451524935" 1949 false 1210600).publicationYear
        = (Book.new "1984" "George Orwell" "9780451524935" 1949).publicationYear) :=
  ⟨by decide, by decide,
   bibliographic_fields_immutable [.addBook "1984" "George Orwell" "9780451524935" 1949]
     (.borrowBook 1000 1 "A") 1 (Book.new "1984" "George Orwell" "9780451524935" 1949)
     ⟨"1984", "George Orwell", "9780451524935", 1949, false, 1210600⟩
     (by decide) (by decide) (by decide)⟩

/-- One call that is not a successful `borrowBook id` keeps the due date of book
`id` at 0 when it was 0 or the book is new. -/
theorem call_dueDate_zero (L : Library) (c : Call) (id : Int)
    (hz : ∀ b, L.findBook id = some b → b.dueDate = 0)
    (hnot : everBorrowed L [c] id = false) :
    ∀ b, (L.call c).2.findBook id = some b → b.dueDate = 0 := by
  intro b ha
  cases c with
  | addBook title author isbn publicationYear =>
    by_cases hne : id = L.nextId
    · have hnew : (L.call (Call.addBook title author isbn publicationYear)).2.findBook id
          = some (Book.new title author isbn publicationYear) := by
        rw [hne]; exact AList.lookup_insert _
      rw [hnew] at ha
      rw [← Option.some.inj ha]
      rfl
    · have hsame : (L.call (Call.addBook title author isbn publicationYear)).2.findBook id
          = L.findBook id := AList.lookup_insert_ne hne
      rw [hsame] at ha
      exact hz b ha
  | removeBook i =>
    by_cases hne : id = i
    · have hnone : (L.call (Call.removeBook i)).2.findBook id = none := by
        rw [hne]; exact AList.lookup_erase i L.books
      rw [hnone] at ha
      exact Option.noConfusion ha
    · have hsame : (L.call (Call.removeBook i)).2.findBook id = L.findBook id :=
        AList.lookup_erase_ne hne
      rw [hsame] at ha
      exact hz b ha
  | borrowBook now i who =>
    have ha' : (L.borrowBook now i who).2.findBook id = some b := ha
    by_cases hne : id = i
    · subst hne
      have hfail : (L.borrowBook now id who).1 = false := by
        simp [everBorrowed] at hnot
        exact hnot
      rw [borrowBook_state_of_false L now id who hfail] at ha'
      exact hz b ha'
    · rw [findBook_borrowBook_of_ne L now i id who hne] at ha'
      exact hz b ha'
  | returnBook i who =>
    have ha' : (L.returnBook i who).2.findBook id = some b := ha
    by_cases hne : id = i
    · subst hne
      cases hfind : L.findBook id with
      | none =>
        rw [returnBook_of_missing L id who hfind, hfind] at ha'
        exact Option.noConfusion ha'
      | some book =>
        cases havail : book.getAvailability with
        | true =>
          rw [returnBook_of_available L id who book hfind havail] at ha'
          exact hz b ha'
        | false =>
          rw [findBook_returnBook L id who book hfind havail] at ha'
          rw [← Option.some.inj ha']
          exact hz book hfind
    · rw [findBook_returnBook_of_ne L i id who hne] at ha'
      exact hz b ha'

/-- A book that is never borrowed in a run keeps the due date 0. -/
theorem run_dueDate_zero (id : Int) (calls : List Call) :
    ∀ L : Library, (∀ b, L.findBook id = some b → b.dueDate = 0) →
      everBorrowed L calls id = false →
      ∀ b, (L.run calls).2.findBook id = some b → b.dueDate = 0 := by
  induction calls with
  | nil => intro L hz _ b hb; exact hz b hb
  | cons c rest ih =>
    intro L hz hnot b hb
    rw [run_cons_state] at hb
    have hsplit : everBorrowed L [c] id = false ∧ everBorrowed (L.call c).2 rest id = false := by
      cases c <;> simp [everBorrowed] at hnot ⊢ <;> exact hnot
    exact ih (L.call c).2 (call_dueDate_zero L c id hz hsplit.1) hsplit.2 b hb

/-- One call keeps the property that every unavailable book of the catalog has its
id in the vector of some borrower. -/
theorem call_attributed (L : Library) (c : Call)
    (hinv : ∀ id b, L.findBook id = some b → b.isAvailable = false →
      ∃ name, id ∈ (L.borrowedBooks.lookup name).getD []) :
    ∀ id b, (L.call c).2.findBook id = some b → b.isAvailable = false →
      ∃ name, id ∈ ((L.call c).2.borrowedBooks.lookup name).getD [] := by
  intro id b ha hun
  cases c with
  | addBook title author isbn publicationYear =>
    by_cases hne : id = L.nextId
    · have hnew : (L.call (Call.addBook title author isbn publicationYear)).2.findBook id
          = some (Book.new title author isbn publicationYear) := by
        rw [hne]; exact AList.lookup_insert _
      rw [hnew] at ha
      rw [← Option.some.inj ha] at hun
      exact Bool.noConfusion hun
    · have hsame : (L.call (Call.addBook title author isbn publicationYear)).2.findBook id
          = L.findBook id := AList.lookup_insert_ne hne
      rw [hsame] at ha
      exact hinv id b ha hun
  | removeBook i =>
    by_cases hne : id = i
    · have hnone : (L.call (Call.removeBook i)).2.findBook id = none := by
        rw [hne]; exact AList.lookup_erase i L.books
      rw [hnone] at ha
      exact Option.noConfusion ha
    · have hsame : (L.call (Call.removeBook i)).2.findBook id = L.findBook id :=
        AList.lookup_erase_ne hne
      rw [hsame] at ha
      exact hinv id b ha hun
  | borrowBook now i who =>
    show ∃ name, id ∈ ((L.borrowBook now i who).2.borrowedBooks.lookup name).getD []
    have ha' : (L.borrowBook now i who).2.findBook id = some b := ha
    cases hok : (L.borrowBook now i who).1 with
    | false =>
      rw [borrowBook_state_of_false L now i who hok] at ha' ⊢
      exact hinv id b ha' hun
    | true =>
      obtain ⟨book, hfind, havail⟩ := available_of_borrowBook L now i who hok
      have hvec := lookup_borrowBook L now i who book hfind havail
      by_cases hne : id = i
      · subst hne
        exact ⟨who, by rw [hvec]; simp⟩
      · rw [findBook_borrowBook_of_ne L now i id who hne] at ha'
        obtain ⟨name, hmem⟩ := hinv id b ha' hun
        by_cases hname : name = who
        · subst hname
          exact ⟨name, by rw [hvec]; simp [hmem]⟩
        · refine ⟨name, ?_⟩
          rw [borrowBook_of_available L now i who book hfind havail]
          show id ∈ ((L.borrowedBooks.insert who _).lookup name).getD []
          rw [AList.lookup_insert_ne hname]
          exact hmem
  | returnBook i who =>
    show ∃ name, id ∈ ((L.returnBook i who).2.borrowedBooks.lookup name).getD []
    have ha' : (L.returnBook i who).2.findBook id = some b := ha
    cases hfind : L.findBook i with
    | none =>
      rw [returnBook_of_missing L i who hfind] at ha' ⊢
      exact hinv id b ha' hun
    | some book =>
      cases havail : book.getAvailability with
      | true =>
        rw [returnBook_of_available L i who book hfind havail] at ha' ⊢
        exact hinv id b ha' hun
      | false =>
        by_cases hne : id = i
        · subst hne
          rw [findBook_returnBook L id who book hfind havail] at ha'
          rw [← Option.some.inj ha'] at hun
          exact Bool.noConfusion hun
        · rw [findBook_returnBook_of_ne L i id who hne] at ha'
          obtain ⟨name, hmem⟩ := hinv id b ha' hun
          rw [returnBook_of_unavailable L i who book hfind havail]
          by_cases hname : name = who
          · subst hname
            refine ⟨name, ?_⟩
            show id ∈ ((L.borrowedBooks.insert name _).lookup name).getD []
            rw [AList.lookup_insert, eraseRemove_eq_filter, subscript_eq_getD]
            simp [List.mem_filter, hmem, hne]
          · refine ⟨name, ?_⟩
            show id ∈ ((L.borrowedBooks.insert who _).lookup name).getD []
            rw [AList.lookup_insert_ne hname]
            exact hmem

/-- Every run keeps the property that every unavailable book of the catalog has its
id in the vector of some borrower. -/
theorem run_attributed (calls : List Call) :
    ∀ L : Library,
      (∀ id b, L.findBook id = some b → b.isAvailable = false →
        ∃ name, id ∈ (L.borrowedBooks.lookup name).getD []) →
      ∀ id b, (L.run calls).2.findBook id = some b → b.isAvailable = false →
        ∃ name, id ∈ ((L.run calls).2.borrowedBooks.lookup name).getD [] := by
  induction calls with
  | nil => intro L hinv; exact hinv
  | cons c rest ih =>
    intro L hinv id b
    rw [run_cons_state]
    exact ih (L.call c).2 (call_attributed L c hinv) id b

/-- C17, refuted as stated: in the state reached by one `addBook`, the call
`borrowBook 1` at clock reading 1000 keeps book 1 in the catalog and changes its
`dueDate` from 0 to 1210600, so not every field other than `available` keeps its
value. -/
theorem dueDate_mutates_on_borrowBook :
    ¬ (∀ before after : Book,
      (Library.new.run [.addBook "1984" "George Orwell" "9780451524935" 1949]).2.findBook 1
        = some before →
      ((Library.new.run [.addBook "1984" "George Orwell" "9780451524935" 1949]).2.call
        (.borrowBook 1000 1 "A")).2.findBook 1 = some after →
      after.title = before.title ∧ after.author = before.author ∧
      after.isbn = before.isbn ∧ after.publicationYear = before.publicationYear ∧
      after.dueDate = before.dueDate) := by
  intro hall
  have h := hall (Book.new "1984" "George Orwell" "9780451524935" 1949)
    ⟨"1984", "George Orwell", "9780451524935", 1949, false, 1210600⟩ (by decide) (by decide)
  exact absurd h.2.2.2.2 (by decide)

/-- C17, amended. `available` and `dueDate` are the only fields of a book that change
after construction: for every call made in a state reached from the fresh library
without overflow of the `int` counter and every book present before and after the
call, the title, author, isbn and publication year are as before, and so is
`dueDate` unless the call is a `borrowBook` of that book that returns true, which
sets it to `now + 1209600` when that sum does not overflow `std::time_t`. -/
theorem book_fields_frame (calls : List Call) (c : Call) (id : Int)
    (before after : Book) (h : (countAddBook calls : Int) < INT_MAX)
    (hb : (Library.new.run calls).2.findBook id = some before)
    (ha : ((Library.new.run calls).2.call c).2.findBook id = some after) :
    after.title = before.title ∧ after.author = before.author ∧
    after.isbn = before.isbn ∧ after.publicationYear = before.publicationYear ∧
    ((¬ ∃ now who, c = Call.borrowBook now id who ∧
        ((Library.new.run calls).2.borrowBook now id who).1 = true) →
      after.dueDate = before.dueDate) ∧
    (∀ now who, c = Call.borrowBook now id who →
      ((Library.new.run calls).2.borrowBook now id who).1 = true →
      TIME_MIN ≤ now → now + 1209600 ≤ TIME_MAX →
      after.dueDate = now + 1209600) := by
  rcases call_effect_on_book _ c id before after (reachable_nextId_fresh calls h) hb ha with
    hsame | ⟨now, who, hc, hok, hav, hloan⟩ | ⟨who, hc, _, _, hback⟩
  · rw [hsame]
    refine ⟨rfl, rfl, rfl, rfl, fun _ => rfl, ?_⟩
    intro now who hc hok hnow hfits
    subst hc
    obtain ⟨book, hfind, havail⟩ := available_of_borrowBook _ now id who hok
    have hnew := findBook_borrowBook _ now id who book hfind havail
    have ha' : ((Library.new.run calls).2.borrowBook now id who).2.findBook id = some after := ha
    rw [hnew] at ha'
    rw [hsame] at ha'
    rw [← Option.some.inj ha']
    exact wrapTime_dueDate now hnow hfits
  · rw [hloan]
    refine ⟨rfl, rfl, rfl, rfl, fun hno => absurd ⟨now, who, hc, hok⟩ hno, ?_⟩
    intro now2 who2 hc2 _ hnow2 hfits2
    rw [hc] at hc2
    injection hc2 with hnow _ _
    rw [hnow]
    exact wrapTime_dueDate now2 hnow2 hfits2
  · rw [hback]
    refine ⟨rfl, rfl, rfl, rfl, fun _ => rfl, ?_⟩
    intro now2 who2 hc2 _ _ _
    rw [hc] at hc2
    exact Call.noConfusion hc2

/-- C17 amended, at the one-book catalog: a `returnBook` of book 1 after its loan
keeps the due date, and the `borrowBook` that made the loan set it. -/
theorem book_fields_frame_witness :
    (Library.new.run [.addBook "1984" "George Orwell" "9780451524935" 1949,
      .borrowBook 1000 1 "A"]).2.findBook 1
      = some ⟨"1984", "George Orwell", "9780451524935", 1949, false, 1210600⟩ ∧
    ((Library.new.run [.addBook "1984" "George Orwell" "9780451524935" 1949,
      .borrowBook 1000 1 "A"]).2.call (.returnBook 1 "B")).2.findBook 1
      = some ⟨"1984", "George Orwell", "9780451524935", 1949, true, 1210600⟩ ∧
    (Book.mk "1984" "George Orwell" "9780451524935" 1949 true 1210600).dueDate
      = (Book.mk "1984" "George Orwell" "9780451524935" 1949 false 1210600).dueDate ∧
    (Book.mk "1984" "George Orwell" "9780451524935" 1949 false 1210600).dueDate
      = 1000 + 1209600 :=
  have h1 := book_fields_frame
    [.addBook "1984" "George Orwell" "9780451524935" 1949, .borrowBook 1000 1 "A"]
    (.returnBook 1 "B") 1
    ⟨"1984", "George Orwell", "9780451524935", 1949, false, 1210600⟩
    ⟨"1984", "George Orwell", "9780451524935", 1949, true, 1210600⟩
    (by decide) (by decide) (by decide)
  have h2 := book_fields_frame [.addBook "1984" "George Orwell" "9780451524935" 1949]
    (.borrowBook 1000 1 "A") 1 (Book.new "1984" "George Orwell" "9780451524935" 1949)
    ⟨"1984", "George Orwell", "9780451524935", 1949, false, 1210600⟩
    (by decide) (by decide) (by decide)
  ⟨by decide, by decide,
   h1.2.2.2.2.1 (by rintro ⟨now, who, hc, _⟩; exact Call.noConfusion hc),
   h2.2.2.2.2.2 1000 "A" rfl (by decide) (by decide) (by decide)⟩

/-- C18. The due date is set exactly when a book goes from available to unavailable:
for every call made in a state reached from the fresh library without overflow of
the counter and every book present before and after the call, the call is a
`borrowBook` of that book that returns true (the one path that assigns `dueDate`)
if and only if the book goes from available to unavailable, and then the new
`dueDate` is `now + 1209600`, for a clock reading `now` of `std::time_t` for which
that sum does not overflow `std::time_t`; every other call, in particular every `returnBook`
and every `borrowBook` that returns false, leaves `dueDate` as it was; and a book
that has never been borrowed has `dueDate` 0. -/
theorem dueDate_set_exactly_on_loan (calls history : List Call) (c : Call) (id k : Int)
    (before after : Book) (h : (countAddBook calls : Int) < INT_MAX)
    (hb : (Library.new.run calls).2.findBook id = some before)
    (ha : ((Library.new.run calls).2.call c).2.findBook id = some after) :
    ((∃ now who, c = Call.borrowBook now id who ∧
        ((Library.new.run calls).2.borrowBook now id who).1 = true) ↔
      (before.isAvailable = true ∧ after.isAvailable = false)) ∧
    (∀ now who, c = Call.borrowBook now id who →
      ((Library.new.run calls).2.borrowBook now id who).1 = true →
      TIME_MIN ≤ now → now + 1209600 ≤ TIME_MAX →
      after.dueDate = now + 1209600) ∧
    (¬ (before.isAvailable = true ∧ after.isAvailable = false) →
      after.dueDate = before.dueDate) ∧
    (∀ i who, c = Call.returnBook i who → after.dueDate = before.dueDate) ∧
    (∀ now i who, c = Call.borrowBook now i who →
      ((Library.new.run calls).2.borrowBook now i who).1 = false →
      after.dueDate = before.dueDate) ∧
    (∀ b, everBorrowed Library.new history k = false →
      (Library.new.run history).2.findBook k = some b → b.dueDate = 0) := by
  have hlast : ∀ b, everBorrowed Library.new history k = false →
      (Library.new.run history).2.findBook k = some b → b.dueDate = 0 := by
    intro b hnever hfind
    exact run_dueDate_zero k history Library.new
      (fun x hx => Option.noConfusion (show (none : Option Book) = some x from hx)) hnever b hfind
  rcases call_effect_on_book _ c id before after (reachable_nextId_fresh calls h) hb ha with
    hsame | ⟨now, who, hc, hok, hav, hloan⟩ | ⟨who, hc, hok, hav, hback⟩
  · have hno : ¬ ∃ now who, c = Call.borrowBook now id who ∧
        ((Library.new.run calls).2.borrowBook now id who).1 = true := by
      rintro ⟨now, who, hc, hok⟩
      subst hc
      obtain ⟨book, hfind, havail⟩ := available_of_borrowBook _ now id who hok
      have hnew := findBook_borrowBook _ now id who book hfind havail
      have ha' : ((Library.new.run calls).2.borrowBook now id who).2.findBook id = some after := ha
      rw [hnew, hsame] at ha'
      have hbook : book = before := Option.some.inj (hfind.symm.trans hb)
      have hflag := congrArg Book.isAvailable (Option.some.inj ha')
      rw [hbook] at havail
      have havail' : before.isAvailable = true := havail
      rw [← hflag] at havail'
      exact Bool.noConfusion havail'
    refine ⟨⟨fun hex => absurd hex hno, ?_⟩, ?_, ?_, ?_, ?_, hlast⟩
    · rintro ⟨h1, h2⟩
      rw [hsame, h1] at h2
      exact Bool.noConfusion h2
    · intro now who hc hok _ _
      exact absurd ⟨now, who, hc, hok⟩ hno
    · intro _; rw [hsame]
    · intro _ _ _; rw [hsame]
    · intro _ _ _ _ _; rw [hsame]
  · refine ⟨⟨fun _ => ⟨hav, by rw [hloan]⟩, fun _ => ⟨now, who, hc, hok⟩⟩, ?_, ?_, ?_, ?_, hlast⟩
    · intro now2 who2 hc2 _ hnow2 hfits2
      rw [hc] at hc2
      injection hc2 with hnow _ _
      rw [hloan, hnow]
      exact wrapTime_dueDate now2 hnow2 hfits2
    · intro hnot
      exact absurd ⟨hav, by rw [hloan]⟩ hnot
    · intro i who2 hc2
      rw [hc] at hc2
      exact Call.noConfusion hc2
    · intro now2 i who2 hc2 hfail
      rw [hc] at hc2
      injection hc2 with hnow hi hwho
      rw [← hnow, ← hi, ← hwho, hok] at hfail
      exact Bool.noConfusion hfail
  · have hflag : after.isAvailable = true := by rw [hback]
    refine ⟨⟨?_, ?_⟩, ?_, ?_, ?_, ?_, hlast⟩
    · rintro ⟨now, who2, hc2, _⟩
      rw [hc] at hc2
      exact Call.noConfusion hc2
    · rintro ⟨h1, _⟩
      have hav' : before.isAvailable = false := hav
      rw [h1] at hav'
      exact Bool.noConfusion hav'
    · intro now who2 hc2 _ _ _
      rw [hc] at hc2
      exact Call.noConfusion hc2
    · intro _; rw [hback]
    · intro _ _ _; rw [hback]
    · intro _ _ _ _ _; rw [hback]

/-- C18, at the one-book catalog: the `borrowBook` of book 1 at clock reading 1000
takes it from available to unavailable and sets the due date 1210600; in a run with
a refused return and no loan, book 1 keeps the due date 0. -/
theorem dueDate_set_exactly_on_loan_witness :
    (Library.new.run [.addBook "1984" "George Orwell" "9780451524935" 1949]).2.findBook 1
      = some (Book.new "1984" "George Orwell" "9780451524935" 1949) ∧
    ((Library.new.run [.addBook "1984" "George Orwell" "9780451524935" 1949]).2.call
      (.borrowBook 1000 1 "A")).2.findBook 1
      = some ⟨"1984", "George Orwell", "9780451524935", 1949, false, 1210600⟩ ∧
    (Book.mk "1984" "George Orwell" "9780451524935" 1949 false 1210600).dueDate
      = 1000 + 1209600 ∧
    everBorrowed Library.new [.addBook "1984" "George Orwell" "9780451524935" 1949,
      .returnBook 1 "A", .borrowBook 5 2 "A"] 1 = false ∧
    (Book.new "1984" "George Orwell" "9780451524935" 1949).dueDate = 0 :=
  have h := dueDate_set_exactly_on_loan
    [.addBook "1984" "George Orwell" "9780451524935" 1949]
    [.addBook "1984" "George Orwell" "9780451524935" 1949, .returnBook 1 "A",
      .borrowBook 5 2 "A"]
    (.borrowBook 1000 1 "A") 1 1 (Book.new "1984" "George Orwell" "9780451524935" 1949)
    ⟨"1984", "George Orwell", "9780451524935", 1949, false, 1210600⟩
    (by decide) (by decide) (by decide)
  ⟨by decide, by decide, h.2.1 1000 "A" rfl (by decide) (by decide) (by decide), by decide,
   h.2.2.2.2.2 (Book.new "1984" "George Orwell" "9780451524935" 1949) (by decide) (by decide)⟩

/-- C19. In every state reached from the fresh library by `addBook`, `removeBook`,
`borrowBook` and `returnBook` calls with any arguments (returns under another name
included), every book that is in `books` and unavailable has its id in the vector of
at least one borrower name. -/
theorem loan_is_attributed (calls : List Call) (id : Int) (book : Book)
    (hfind : (Library.new.run calls).2.findBook id = some book)
    (hun : book.getAvailability = false) :
    ∃ name ids, (Library.new.run calls).2.borrowedBooks.lookup name = some ids ∧ id ∈ ids := by
  have hinit : ∀ i b, Library.new.findBook i = some b → b.isAvailable = false →
      ∃ name, i ∈ (Library.new.borrowedBooks.lookup name).getD [] := by
    intro i b hb
    exact Option.noConfusion (show (none : Option Book) = some b from hb)
  obtain ⟨name, hmem⟩ := run_attributed calls Library.new hinit id book hfind hun
  cases hl : (Library.new.run calls).2.borrowedBooks.lookup name with
  | none => rw [hl] at hmem; simp at hmem
  | some ids => rw [hl] at hmem; exact ⟨name, ids, hl, hmem⟩

/-- C19, at a run where "A" borrows book 1, "B" hands it back and "C" borrows it:
book 1 is unavailable and the vector of "C" holds its id. -/
theorem loan_is_attributed_witness :
    (Library.new.run [.addBook "1984" "George Orwell" "9780451524935" 1949,
      .borrowBook 1000 1 "A", .returnBook 1 "B", .borrowBook 2000 1 "C"]).2.findBook 1
      = some ⟨"1984", "George Orwell", "9780451524935", 1949, false, 1211600⟩ ∧
    (Library.new.run [.addBook "1984" "George Orwell" "9780451524935" 1949,
      .borrowBook 1000 1 "A", .returnBook 1 "B", .borrowBook 2000 1 "C"]).2.borrowedBooks.lookup
      "C" = some [1] ∧
    (∃ name ids, (Library.new.run [.addBook "1984" "George Orwell" "9780451524935" 1949,
      .borrowBook 1000 1 "A", .returnBook 1 "B",
      .borrowBook 2000 1 "C"]).2.borrowedBooks.lookup name = some ids ∧ (1 : Int) ∈ ids) :=
  ⟨by decide, by decide,
   loan_is_attributed [.addBook "1984" "George Orwell" "9780451524935" 1949,
     .borrowBook 1000 1 "A", .returnBook 1 "B", .borrowBook 2000 1 "C"] 1
     ⟨"1984", "George Orwell", "9780451524935", 1949, false, 1211600⟩ (by decide) (by decide)⟩

end LibSys
